import Mathlib

/-!
Verification development for the schema extraction / versioned diff engine of
the NL2Flow repository.

The Python code operates on parsed JSON values (dicts, lists, strings,
numbers, booleans, None).  We embed those values as the mutual inductive
family `Json` / `JsonList` / `JsonObj` below; a Python dict is an
association list of string keys (a real Python dict has no duplicate keys,
which is captured by the well-formedness predicate `Json.wfB`).

Embedded source files:
 * src/src/app/utils/schema_diff.py            (diff_schemas)
 * src/app/lambda_functions/scheduled_scanner.py   (compare_schemas)
 * src/src/app/lambda_functions/scheduled_scanner.py
   (SchemaComparator, APIScanner, DynamoDBManager, lambda_handler loop body)
 * src/app/api_doc_scraper.py                  (_extract_openapi_auth, _resolve_schema_ref)
 * src/app/utils/dynamodb_snapshots.py         (store_schema_snapshot, list_api_names,
                                                list_api_versions)
-/

deriving instance DecidableEq for Except

/-! ## String helpers

Lean's builtin `String` operations (`splitOn`, `toUpper`, `<`, …) are
implemented on byte positions and do not reduce inside the kernel, so we
use character-list based equivalents.  Python string comparison is
lexicographic on code points, which `strLtB` implements. -/

def charListLt : List Char → List Char → Bool
  | [], [] => false
  | [], _ :: _ => true
  | _ :: _, [] => false
  | c :: cs, d :: ds => if c < d then true else if d < c then false else charListLt cs ds

/-- Python `a < b` on strings: lexicographic comparison of code points. -/
def strLtB (a b : String) : Bool := charListLt a.data b.data

/-- Python `a <= b` on strings. -/
def strLeB (a b : String) : Bool := !(strLtB b a)

/-- Python `s.split(sep)` for a one-character separator. -/
def splitOnChar (sep : Char) (s : String) : List String :=
  splitGo s.data []
where
  splitGo : List Char → List Char → List String
    | [], acc => [String.mk acc.reverse]
    | c :: cs, acc =>
        if c = sep then String.mk acc.reverse :: splitGo cs [] else splitGo cs (c :: acc)

/-- Python `s.upper()` (ASCII is all the sources use). -/
def upperStr (s : String) : String := String.mk (s.data.map Char.toUpper)

def startsWithList : List Char → List Char → Bool
  | [], _ => true
  | _ :: _, [] => false
  | c :: cs, d :: ds => c = d && startsWithList cs ds

/-- Python `needle in hay` on strings (substring test). -/
def strContains (hay needle : String) : Bool :=
  containsGo hay.data
where
  containsGo : List Char → Bool
    | [] => startsWithList needle.data []
    | c :: cs => startsWithList needle.data (c :: cs) || containsGo cs

/-- Python `sep.join(parts)`. -/
def joinSep (sep : String) : List String → String
  | [] => ""
  | [x] => x
  | x :: y :: rest => x ++ sep ++ joinSep sep (y :: rest)

def natDigitsAux : Nat → Nat → List Char
  | 0, _ => []
  | fuel + 1, n =>
      if n < 10 then [Char.ofNat (48 + n)]
      else natDigitsAux fuel (n / 10) ++ [Char.ofNat (48 + n % 10)]

/-- Decimal rendering of a natural number (Python `str(timestamp)`). -/
def natToStr (n : Nat) : String := String.mk (natDigitsAux (n + 1) n)

def digitsToNat : List Char → Nat → Option Nat
  | [], acc => some acc
  | c :: cs, acc =>
      if '0' ≤ c ∧ c ≤ '9' then digitsToNat cs (acc * 10 + (c.toNat - 48)) else none

/-- Parse a decimal string, defaulting to 0 (used only to state claims about
numeric timestamp order). -/
def strToNatD (s : String) : Nat :=
  match s.data with
  | [] => 0
  | l => (digitsToNat l 0).getD 0

/-! ## JSON values -/

mutual
inductive Json where
  | null : Json
  | bool (b : Bool) : Json
  | num (n : Int) : Json
  | str (s : String) : Json
  | arr (xs : JsonList) : Json
  | obj (kvs : JsonObj) : Json
  deriving DecidableEq, Repr

inductive JsonList where
  | nil : JsonList
  | cons (x : Json) (xs : JsonList) : JsonList
  deriving DecidableEq, Repr

inductive JsonObj where
  | nil : JsonObj
  | cons (k : String) (v : Json) (rest : JsonObj) : JsonObj
  deriving DecidableEq, Repr
end

def JsonList.toList : JsonList → List Json
  | .nil => []
  | .cons x xs => x :: xs.toList

def JsonObj.keys : JsonObj → List String
  | .nil => []
  | .cons k _ rest => k :: rest.keys

/-- First binding of key `k` (a Python dict has at most one). -/
def JsonObj.lookup : JsonObj → String → Option Json
  | .nil, _ => none
  | .cons k v rest, q => if k = q then some v else rest.lookup q

def JsonObj.hasKey (o : JsonObj) (q : String) : Bool := (o.lookup q).isSome

/-- Python `d.get(k, default)` on a dict. -/
def JsonObj.getD (o : JsonObj) (q : String) (d : Json) : Json := (o.lookup q).getD d

/-- No duplicate keys at this level (true of every Python dict). -/
def JsonObj.keysNodupB : JsonObj → Bool
  | .nil => true
  | .cons k _ rest => !rest.hasKey k && rest.keysNodupB

mutual
/-- A `Json` value that can arise from a parsed Python JSON document:
every object level has pairwise-distinct keys. -/
def Json.wfB : Json → Bool
  | .null => true
  | .bool _ => true
  | .num _ => true
  | .str _ => true
  | .arr xs => xs.wfB
  | .obj kvs => kvs.keysNodupB && kvs.wfB

def JsonList.wfB : JsonList → Bool
  | .nil => true
  | .cons x xs => x.wfB && xs.wfB

def JsonObj.wfB : JsonObj → Bool
  | .nil => true
  | .cons _ v rest => v.wfB && rest.wfB
end

/-- Tag of the Python runtime type of a value (`type(x)`); `bool` and `int`
are distinct types in Python, as are all six cases here. -/
def Json.typeTag : Json → Nat
  | .null => 0
  | .bool _ => 1
  | .num _ => 2
  | .str _ => 3
  | .arr _ => 4
  | .obj _ => 5

mutual
/-- Deep structural equality of JSON trees: Python `==` on parsed JSON
documents (dict comparison ignores key order). -/
def Json.deepEq : Json → Json → Bool
  | .null, .null => true
  | .bool a, .bool b => a == b
  | .num a, .num b => a == b
  | .str a, .str b => a == b
  | .arr xs, .arr ys => JsonList.deepEq xs ys
  | .obj o, .obj n => JsonObj.subEq o n && n.keys.all o.hasKey
  | _, _ => false

def JsonList.deepEq : JsonList → JsonList → Bool
  | .nil, .nil => true
  | .cons x xs, .cons y ys => Json.deepEq x y && JsonList.deepEq xs ys
  | _, _ => false

/-- Every binding of the first object is matched by an equal binding in the
second. -/
def JsonObj.subEq : JsonObj → JsonObj → Bool
  | .nil, _ => true
  | .cons k v rest, n =>
      (match n.lookup k with
       | some w => Json.deepEq v w
       | none => false) && JsonObj.subEq rest n
end

/-- Python truthiness of a parsed JSON value (`if x:`). -/
def Json.truthy : Json → Bool
  | .null => false
  | .bool b => b
  | .num n => n ≠ 0
  | .str s => s ≠ ""
  | .arr xs => xs ≠ .nil
  | .obj o => o ≠ .nil

/-- Python `x.get(k, default)` where `x` is known to be a dict in the source;
on a non-dict the sources would raise, which the theorems exclude by
hypothesis where it matters. -/
def Json.getD (j : Json) (q : String) (d : Json) : Json :=
  match j with
  | .obj o => o.getD q d
  | _ => d

/-- Python subscript `x[k]`: `KeyError` when missing, `TypeError` on a
non-dict. -/
def Json.getKey (j : Json) (q : String) : Except String Json :=
  match j with
  | .obj o =>
      match o.lookup q with
      | some v => .ok v
      | none => .error ("KeyError: " ++ q)
  | _ => .error "TypeError: value is not subscriptable"

/-- Total lookup used for key comparisons (`none` when absent or non-dict). -/
def Json.lookupKey (j : Json) (q : String) : Option Json :=
  match j with
  | .obj o => o.lookup q
  | _ => none

/-! ## Diff engine — src/src/app/utils/schema_diff.py, diff_schemas -/

/-- One element of the list returned by `diff_schemas`: a dict
`{op, path, old, new}`; Python `None` in `old` / `new` is `Json.null`. -/
structure DiffEntry where
  op : String
  path : String
  old : Json
  new : Json
  deriving DecidableEq, Repr

/-- `f"{path}/{key}" if path else key`. -/
def childPath (path k : String) : String := if path = "" then k else path ++ "/" ++ k

/-- `f"{path}[{i}]"`. -/
def idxPath (path : String) (i : Nat) : String := path ++ "[" ++ natToStr i ++ "]"

/-- Entries for indices present only in the new (longer) array. -/
def diffArrAdds : JsonList → String → Nat → List DiffEntry
  | .nil, _, _ => []
  | .cons y ys, path, i => ⟨"add", idxPath path i, .null, y⟩ :: diffArrAdds ys path (i + 1)

/-- Entries for indices present only in the old (longer) array. -/
def diffArrRemoves : JsonList → String → Nat → List DiffEntry
  | .nil, _, _ => []
  | .cons x xs, path, i => ⟨"remove", idxPath path i, x, .null⟩ :: diffArrRemoves xs path (i + 1)

/-- `remove` entries for keys only in the old dict (`old_keys - new_keys`). -/
def diffObjRemoves : JsonObj → JsonObj → String → List DiffEntry
  | .nil, _, _ => []
  | .cons k v rest, n, path =>
      (if n.hasKey k then [] else [⟨"remove", childPath path k, v, .null⟩])
        ++ diffObjRemoves rest n path

/-- `add` entries for keys only in the new dict (`new_keys - old_keys`). -/
def diffObjAdds : JsonObj → JsonObj → String → List DiffEntry
  | _, .nil, _ => []
  | o, .cons k v rest, path =>
      (if o.hasKey k then [] else [⟨"add", childPath path k, .null, v⟩])
        ++ diffObjAdds o rest path

mutual
/-- Embedding of `diff_schemas(old, new, path)`.

The Python function first emits a single `change` entry when
`type(old) != type(new)`; otherwise it recurses into dicts (removed keys,
added keys, then shared keys), compares lists index-wise up to the shorter
length followed by removals / additions for the tail, and compares scalars
with `!=`.  Iteration over Python's key sets is modelled in the old
(respectively new) dict's insertion order; set order is unspecified in
Python and no claim depends on it. -/
def diff_schemas : Json → Json → String → List DiffEntry
  | .obj o, .obj n, path =>
      diffObjRemoves o n path ++ diffObjAdds o n path ++ diffObjShared o n path
  | .arr xs, .arr ys, path => diffArrs xs ys path 0
  | .null, .null, _ => []
  | .bool a, .bool b, path =>
      if a ≠ b then [⟨"change", path, .bool a, .bool b⟩] else []
  | .num a, .num b, path =>
      if a ≠ b then [⟨"change", path, .num a, .num b⟩] else []
  | .str a, .str b, path =>
      if a ≠ b then [⟨"change", path, .str a, .str b⟩] else []
  | old, new, path => [⟨"change", path, old, new⟩]

/-- Recursion over shared dict keys (`old_keys & new_keys`), iterated in the
old dict's order. -/
def diffObjShared : JsonObj → JsonObj → String → List DiffEntry
  | .nil, _, _ => []
  | .cons k v rest, n, path =>
      (match n.lookup k with
       | some w => diff_schemas v w (childPath path k)
       | none => []) ++ diffObjShared rest n path

/-- Index-wise comparison of two arrays: shared indices recurse, the tail of
the longer array becomes `add` / `remove` entries. -/
def diffArrs : JsonList → JsonList → String → Nat → List DiffEntry
  | .nil, ys, path, i => diffArrAdds ys path i
  | .cons x xs, .nil, path, i => diffArrRemoves (.cons x xs) path i
  | .cons x xs, .cons y ys, path, i =>
      diff_schemas x y (idxPath path i) ++ diffArrs xs ys path (i + 1)
end

/-- `diff_schema_versions(schema1, schema2)`: the public entry point. -/
def diff_schema_versions (schema1 schema2 : Json) : List DiffEntry :=
  diff_schemas schema1 schema2 ""

/-- Swap of a diff entry: `add` entries become `remove` entries and vice
versa, with `old` and `new` exchanged; `change` entries keep their op. -/
def swapEntry (e : DiffEntry) : DiffEntry :=
  ⟨if e.op = "add" then "remove" else if e.op = "remove" then "add" else e.op,
   e.path, e.new, e.old⟩

/-! ## Endpoint-set comparison — src/app/lambda_functions/scheduled_scanner.py,
compare_schemas (lines 104-137)

The items of the two snapshot lists are dicts with keys `endpoint`, `method`
and `schema`; we embed them as a structure since the comparison reads
exactly those three fields.  Python builds the `set` of `(endpoint, method)`
tuples of each side; a set is modelled as the first-occurrence
deduplication of the key list (set iteration order is unspecified in
Python; only membership and singleton results are claimed). -/

structure ScanItem where
  endpoint : String
  method : String
  schema : Json
  deriving DecidableEq, Repr

/-- `{'path': ep[0], 'method': ep[1]}`. -/
structure EndpointRef where
  path : String
  method : String
  deriving DecidableEq, Repr

/-- A `modified_endpoints` element: path, method and the two schemas. -/
structure ModifiedEndpoint where
  path : String
  method : String
  old_schema : Json
  new_schema : Json
  deriving DecidableEq, Repr

/-- Result dict of `compare_schemas`. -/
structure EndpointChanges where
  added_endpoints : List EndpointRef
  removed_endpoints : List EndpointRef
  modified_endpoints : List ModifiedEndpoint
  deriving DecidableEq, Repr

def ScanItem.key (it : ScanItem) : String × String := (it.endpoint, it.method)

def dedupKeysAux : List (String × String) → List (String × String) → List (String × String)
  | [], _ => []
  | k :: rest, seen =>
      if seen.contains k then dedupKeysAux rest seen
      else k :: dedupKeysAux rest (k :: seen)

/-- The set of `(endpoint, method)` keys of a snapshot, in first-occurrence
order. -/
def itemKeySet (l : List ScanItem) : List (String × String) :=
  dedupKeysAux (l.map ScanItem.key) []

/-- `next(item for item in l if item['endpoint'] == k[0] and item['method'] == k[1])`. -/
def findItem (l : List ScanItem) (k : String × String) : Option ScanItem :=
  l.find? (fun it => it.endpoint = k.1 && it.method = k.2)

/-- The schema of the first item of `l` with the given key. -/
def itemSchema (l : List ScanItem) (k : String × String) : Option Json :=
  (findItem l k).map ScanItem.schema

/-- Embedding of `compare_schemas(old_schema, new_schema)` from
src/app/lambda_functions/scheduled_scanner.py: bucket the items of both
snapshots by `(endpoint, method)`, report keys only in the new set as
added and keys only in the old set as removed, and for common keys report
the endpoint as modified when the two items' `schema` values differ
(Python `!=`, i.e. `Json.deepEq` is false). -/
def compare_schemas (old_schema new_schema : List ScanItem) : EndpointChanges :=
  let old_endpoints := itemKeySet old_schema
  let new_endpoints := itemKeySet new_schema
  let added := new_endpoints.filter (fun k => !old_endpoints.contains k)
  let removed := old_endpoints.filter (fun k => !new_endpoints.contains k)
  let common := old_endpoints.filter (fun k => new_endpoints.contains k)
  { added_endpoints := added.map (fun k => ⟨k.1, k.2⟩)
    removed_endpoints := removed.map (fun k => ⟨k.1, k.2⟩)
    modified_endpoints := common.filterMap (fun k =>
      match findItem old_schema k, findItem new_schema k with
      | some oi, some ni =>
          if oi.schema.deepEq ni.schema then none
          else some ⟨k.1, k.2, oi.schema, ni.schema⟩
      | _, _ => none) }

/-! ## OpenAPI auth extraction — src/app/api_doc_scraper.py,
_extract_openapi_auth (lines 96-142) -/

/-- Python `str(x)` for the f-string `f'http_{...}'` of line 130 and for a
non-string scheme type reaching the final `else` of line 136; no claim
exercises these branches on non-string values. -/
def pyStrLite : Json → String
  | .str s => s
  | .null => "None"
  | .bool true => "True"
  | .bool false => "False"
  | .num n => if n < 0 then "-" ++ natToStr n.natAbs else natToStr n.natAbs
  | .arr _ => "<list>"
  | .obj _ => "<dict>"

/-- The auth string contributed by one security scheme
(`scheme_details`, lines 119-136). -/
def schemeAuthString (d : Json) : String :=
  match d.getD "type" (.str "unknown") with
  | .str "http" =>
      match d.lookupKey "scheme" with
      | some (.str "bearer") => "bearer_token"
      | some (.str "basic") => "basic_auth"
      | _ => "http_" ++ pyStrLite (d.getD "scheme" (.str "unknown"))
  | .str t => if t = "apiKey" then "api_key" else if t = "oauth2" then "oauth2" else t
  | v => pyStrLite v

/-- `spec.get('components', {}).get('securitySchemes', {})`. -/
def securitySchemesOf (spec : Json) : Json :=
  (spec.getD "components" (.obj .nil)).getD "securitySchemes" (.obj .nil)

def JsonObj.values : JsonObj → List Json
  | .nil => []
  | .cons _ v rest => v :: rest.values

/-- Embedding of `_extract_openapi_auth(spec)`: `"none"` when the security
schemes dict is falsy, otherwise the per-scheme strings joined with `", "`
and suffixed according to the truthiness of the global `security` value. -/
def extract_openapi_auth (spec : Json) : String :=
  let global_security := spec.getD "security" (.arr .nil)
  let security_schemes := securitySchemesOf spec
  if !security_schemes.truthy then "none"
  else
    let auth_types :=
      match security_schemes with
      | .obj o => o.values.map schemeAuthString
      | _ => []
    if global_security.truthy then joinSep ", " auth_types ++ " (required)"
    else joinSep ", " auth_types ++ " (optional)"

/-- Modelled from the claim wording (the refinement target for C6): each
scheme maps `http`+`bearer` to `bearer_token`, `http`+`basic` to
`basic_auth`, `apiKey` to `api_key`, `oauth2` to `oauth2`, and any other
scheme type passes through as its type string. -/
def claimSchemeAuthString (d : Json) : String :=
  match d.getD "type" (.str "unknown") with
  | .str "http" =>
      match d.lookupKey "scheme" with
      | some (.str "bearer") => "bearer_token"
      | some (.str "basic") => "basic_auth"
      | _ => "http"
  | .str t => if t = "apiKey" then "api_key" else if t = "oauth2" then "oauth2" else t
  | v => pyStrLite v

/-- Modelled from the claim wording: the whole auth string of a spec. -/
def claimAuthType (spec : Json) : String :=
  let security_schemes := securitySchemesOf spec
  if !security_schemes.truthy then "none"
  else
    let auth_types :=
      match security_schemes with
      | .obj o => o.values.map claimSchemeAuthString
      | _ => []
    if (spec.getD "security" (.arr .nil)).truthy then joinSep ", " auth_types ++ " (required)"
    else joinSep ", " auth_types ++ " (optional)"

/-! ## Reference resolution — src/app/api_doc_scraper.py, _resolve_schema_ref
(lines 247-277) -/

/-- One step `current.get(part, {})` of the pointer walk (line 273); Python
`.get` exists only on dicts, so a non-dict raises `AttributeError`. -/
def refStep (cur : Json) (part : String) : Except String Json :=
  match cur with
  | .obj o => .ok (o.getD part (.obj .nil))
  | _ => .error "AttributeError: value has no attribute get"

/-- The walk of lines 271-273: follow the pointer parts from the document
root, each missing key degrading to an empty dict. -/
def refWalk : Json → List String → Except String Json
  | cur, [] => .ok cur
  | cur, part :: rest => do
      let nxt ← refStep cur part
      refWalk nxt rest

/-- Python `ref_path[2:] if ref_path.startswith('#/') else ref_path`. -/
def stripHashSlash (s : String) : String :=
  match s.data with
  | '#' :: '/' :: rest => String.mk rest
  | _ => s

/-- Embedding of `_resolve_schema_ref(schema, spec)` (both arguments are
dicts per the source annotations): a falsy schema yields `{}`, a schema
without `$ref` is returned unchanged, and a string `$ref` is resolved by
walking its `/`-separated parts from the document root. -/
def resolve_schema_ref (schema : JsonObj) (spec : JsonObj) : Except String Json :=
  if schema = .nil then .ok (.obj .nil)
  else
    match schema.lookup "$ref" with
    | some (.str ref_path) =>
        refWalk (.obj spec) (splitOnChar '/' (stripHashSlash ref_path))
    | some _ => .error "AttributeError: value has no attribute startswith"
    | none => .ok (.obj schema)

/-! ## Snapshot store adapter — src/app/utils/dynamodb_snapshots.py

The DynamoDB backend is an external collaborator; each operation is
parameterised by the outcome of its backend call (`Except` carrying
Python's `str(e)` on failure).  The `except` chains of the source treat an
error whose text mentions missing credentials, a missing table or an
unreachable endpoint as "backend unavailable" and degrade instead of
re-raising. -/

/-- The error classes of the `except` chains (lines 32-75 and 257-270):
credentials, generic botocore errors, missing table, unreachable endpoint. -/
def isAwsUnavailable (e : String) : Bool :=
  strContains e "NoCredentialsError" || strContains e "botocore.exceptions" ||
  strContains e "ResourceNotFoundException" ||
  strContains e "EndpointConnectionError" || strContains e "ConnectTimeoutError"

/-- The item dict built by `store_schema_snapshot` (lines 22-29).  The
`json.loads(json.dumps(schema), parse_float=Decimal)` round-trip is the
identity on the int-valued JSON trees modelled here. -/
def mkSnapshotItem (api_name endpoint method : String) (schema : Json)
    (metadata : JsonObj) (timestamp : Nat) : Json :=
  .obj (.cons "api_name" (.str api_name)
    (.cons "endpoint" (.str endpoint)
      (.cons "method" (.str (upperStr method))
        (.cons "timestamp" (.str (natToStr timestamp))
          (.cons "schema" schema
            (.cons "metadata" (.obj metadata) .nil))))))

/-- Embedding of `store_schema_snapshot(api_name, endpoint, method, schema,
metadata, timestamp)`; `putResult` is the outcome of `table.put_item`.  On
an "unavailable" backend error the function swallows the error and returns
the echoed item; any other error re-raises.  (The caller-supplied
`timestamp` models `int(time.time())` when Python defaults it.) -/
def store_schema_snapshot (api_name endpoint method : String) (schema : Json)
    (metadata : JsonObj) (timestamp : Nat) (putResult : Except String Unit) :
    Except String Json :=
  let item := mkSnapshotItem api_name endpoint method schema metadata timestamp
  match putResult with
  | .ok _ => .ok item
  | .error e => if isAwsUnavailable e then .ok item else .error e

/-- Stable insertion sort: the model of Python's `sorted` (Timsort is also
stable; claims only use sortedness, stability and permutation). `precede a b`
means `a` must be placed before `b`. -/
def pyInsert (precede : α → α → Bool) (x : α) : List α → List α
  | [] => [x]
  | y :: ys => if precede y x then y :: pyInsert precede x ys else x :: y :: ys

/-- `sorted(l, ...)` with strict precedence `precede`. -/
def pySorted (precede : α → α → Bool) : List α → List α
  | [] => []
  | x :: xs => pyInsert precede x (pySorted precede xs)

def dedupStrAux : List String → List String → List String
  | [], _ => []
  | s :: rest, seen =>
      if seen.contains s then dedupStrAux rest seen else s :: dedupStrAux rest (s :: seen)

/-- `sorted(list(set(names)))`: unique names in ascending string order. -/
def sortedUniqueNames (names : List String) : List String :=
  pySorted (fun a b => strLtB a b) (dedupStrAux names [])

/-- Embedding of `list_api_names()` (lines 232-270); `scanResult` is the
outcome of the (paginated) table scan, already projected to the `api_name`
attribute of each item.  Backend-unavailable errors degrade to `[]`. -/
def list_api_names (scanResult : Except String (List String)) :
    Except String (List String) :=
  match scanResult with
  | .ok names => .ok (sortedUniqueNames names)
  | .error e => if isAwsUnavailable e then .ok [] else .error e

/-! ### list_api_versions (lines 272-314) -/

/-- One stored item as read by `list_api_versions`: it uses the
`timestamp` and `method` attributes and the `metadata` dict. -/
structure SnapshotItem where
  timestamp : String
  method : String
  metadata : JsonObj
  deriving DecidableEq, Repr

/-- One element of the returned list (the `methods` set is serialised as a
list). -/
structure VersionSummary where
  timestamp : String
  endpoints_count : Nat
  methods : List String
  source_url : Json
  auth_type : Json
  deriving DecidableEq, Repr

/-- `versions[timestamp]["endpoints_count"] += 1` and
`versions[timestamp]["methods"].add(item["method"])` for an existing
group. -/
def bumpGroup (m : String) : List VersionSummary → String → List VersionSummary
  | [], _ => []
  | v :: vs, ts =>
      if v.timestamp = ts then
        { v with endpoints_count := v.endpoints_count + 1,
                 methods := if v.methods.contains m then v.methods else v.methods.concat m } :: vs
      else v :: bumpGroup m vs ts

/-- The grouping loop of lines 281-294: bucket items by `timestamp`
(insertion order), counting endpoints, collecting the method set and
keeping `source_url` / `auth_type` from the group's first item. -/
def groupVersions : List SnapshotItem → List VersionSummary → List VersionSummary
  | [], acc => acc
  | it :: rest, acc =>
      if (acc.map VersionSummary.timestamp).contains it.timestamp then
        groupVersions rest (bumpGroup it.method acc it.timestamp)
      else
        groupVersions rest (acc.concat
          { timestamp := it.timestamp
            endpoints_count := 1
            methods := [it.method]
            source_url := it.metadata.getD "source_url" .null
            auth_type := it.metadata.getD "auth_type" .null })

/-- Embedding of `list_api_versions(api_name)` applied to the items the
backend returned for that API: group by timestamp, then
`sorted(versions.values(), key=lambda x: x["timestamp"], reverse=True)` —
a stable sort that compares the *string* timestamps. -/
def list_api_versions (items : List SnapshotItem) : List VersionSummary :=
  pySorted (fun a b => strLtB b.timestamp a.timestamp) (groupVersions items [])

/-- Adjacent-wise strict decrease of the numeric timestamp values: the
order C9 claims. -/
def chainDescNat : List Nat → Bool
  | [] => true
  | [_] => true
  | a :: b :: rest => decide (b < a) && chainDescNat (b :: rest)

/-- Adjacent-wise strict lexicographic decrease of the timestamp strings:
the order the code actually produces. -/
def chainDescLex : List String → Bool
  | [] => true
  | [_] => true
  | a :: b :: rest => strLtB b a && chainDescLex (b :: rest)

/-! ## Scheduled scanner — src/src/app/lambda_functions/scheduled_scanner.py

The per-source scan cycle of `lambda_handler` (lines 650-728) together with
the pieces it calls.  Stored DynamoDB items and freshly scraped endpoints
are dicts, embedded as `Json` so that Python's `item['key']` accesses (and
their possible `KeyError`s) are modelled exactly. -/

def JsonList.ofList : List Json → JsonList
  | [] => .nil
  | x :: xs => .cons x (JsonList.ofList xs)

/-- `type(value).__name__` for the non-dict values reaching line 214. -/
def pyTypeName : Json → String
  | .null => "NoneType"
  | .bool _ => "bool"
  | .num _ => "int"
  | .str _ => "str"
  | .arr _ => "list"
  | .obj _ => "dict"

mutual
/-- Embedding of `SchemaComparator._extract_field_paths(schema, prefix)`
(lines 190-216), as the ordered list of assignments the loop performs (the
Python dict keyed by path; colliding paths cannot occur on the shapes the
scanner stores and no claim reads this output). -/
def extract_field_paths : Json → String → List (String × Json)
  | .obj o, pre => efpEntries o pre
  | _, _ => []

def efpEntries : JsonObj → String → List (String × Json)
  | .nil, _ => []
  | .cons k v rest, pre =>
      (let cur := if pre = "" then k else pre ++ "." ++ k
       match v with
       | .obj vo =>
           if vo.hasKey "type" then [(cur, vo.getD "type" .null)]
           else extract_field_paths v cur
       | _ => [(cur, .str (pyTypeName v))]) ++ efpEntries rest pre
end

structure FieldChanges where
  added : List (String × Json)
  removed : List (String × Json)
  changed : List (String × Json × Json)
  deriving DecidableEq, Repr

/-- Embedding of `SchemaComparator._compare_fields(old_schema, new_schema,
endpoint_path)` (lines 160-188).  After computing the two field-path dicts
the source evaluates `new_fields - old_fields` (line 175), and `-` is not
defined on Python dicts, so every call raises `TypeError`. -/
def compare_fields (old_schema new_schema : Json) (endpoint_path : String) :
    Except String FieldChanges :=
  let old_fields := extract_field_paths old_schema ""
  let new_fields := extract_field_paths new_schema ""
  let _ := (old_fields, new_fields, endpoint_path)
  .error "TypeError: unsupported operand type for -: dict and dict"

/-- `_generate_diff_summary` (lines 218-247), flattened to its six counts
and grand total. -/
structure DiffSummary where
  endpoints_added : Nat
  endpoints_removed : Nat
  endpoints_modified : Nat
  fields_added : Nat
  fields_removed : Nat
  fields_changed : Nat
  total_changes : Nat
  deriving DecidableEq, Repr

def generate_diff_summary (a r m : Nat) (fc : FieldChanges) : DiffSummary :=
  { endpoints_added := a
    endpoints_removed := r
    endpoints_modified := m
    fields_added := fc.added.length
    fields_removed := fc.removed.length
    fields_changed := fc.changed.length
    total_changes := a + r + m + fc.added.length + fc.removed.length + fc.changed.length }

/-- Result dict of `SchemaComparator.compare_schemas` (lines 151-158). -/
structure CompareResult where
  added_endpoints : List Json
  removed_endpoints : List Json
  modified_endpoints : List Json
  field_changes : FieldChanges
  diff_summary : DiffSummary
  total_changes : Nat
  deriving DecidableEq, Repr

/-- `(item['endpoint'], item['method'])` — raises `KeyError` on items that
lack either key. -/
def endpointKeyOf (item : Json) : Except String (Json × Json) := do
  let e ← item.getKey "endpoint"
  let m ← item.getKey "method"
  .ok (e, m)

def epMapUpd (acc : List ((Json × Json) × Json)) (k : Json × Json) (v : Json) :
    List ((Json × Json) × Json) :=
  match acc with
  | [] => [(k, v)]
  | (k0, v0) :: rest => if k0 = k then (k0, v) :: rest else (k0, v0) :: epMapUpd rest k v

/-- `{(item['endpoint'], item['method']): item for item in schema}` —
insertion-ordered, last value wins on duplicate keys. -/
def buildEndpointMap : List Json → List ((Json × Json) × Json) →
    Except String (List ((Json × Json) × Json))
  | [], acc => .ok acc
  | it :: rest, acc => do
      let k ← endpointKeyOf it
      buildEndpointMap rest (epMapUpd acc k it)

def epLookup (m : List ((Json × Json) × Json)) (k : Json × Json) : Option Json :=
  (m.find? (fun kv => kv.1 = k)).map Prod.snd

/-- The loop over common endpoint keys (lines 128-144): a differing
`schema` value appends the key to `modified_endpoints` and then calls
`_compare_fields`, whose error propagates out of `compare_schemas`. -/
def modifiedLoop (oldMap newMap : List ((Json × Json) × Json)) :
    List (Json × Json) → List (Json × Json) → FieldChanges →
    Except String (List (Json × Json) × FieldChanges)
  | [], modAcc, fcAcc => .ok (modAcc, fcAcc)
  | k :: rest, modAcc, fcAcc =>
      match epLookup oldMap k, epLookup newMap k with
      | some old_item, some new_item => do
          let os ← old_item.getKey "schema"
          let ns ← new_item.getKey "schema"
          if os.deepEq ns then modifiedLoop oldMap newMap rest modAcc fcAcc
          else do
            let fd ← compare_fields os ns (pyStrLite k.2 ++ ":" ++ pyStrLite k.1)
            modifiedLoop oldMap newMap rest (modAcc.concat k)
              ⟨fcAcc.added ++ fd.added, fcAcc.removed ++ fd.removed,
               fcAcc.changed ++ fd.changed⟩
      | _, _ => .error "KeyError: endpoint map"

/-- `{'path': ep[0], 'method': ep[1]}` with the raw key values. -/
def epRefJson (k : Json × Json) : Json :=
  .obj (.cons "path" k.1 (.cons "method" k.2 .nil))

/-- Embedding of `SchemaComparator.compare_schemas(old_schema, new_schema)`
(lines 97-158). -/
def SchemaComparator.compare_schemas (old_schema new_schema : List Json) :
    Except String CompareResult := do
  let oldMap ← buildEndpointMap old_schema []
  let newMap ← buildEndpointMap new_schema []
  let oldKeys := oldMap.map Prod.fst
  let newKeys := newMap.map Prod.fst
  let added := newKeys.filter (fun k => !oldKeys.contains k)
  let removed := oldKeys.filter (fun k => !newKeys.contains k)
  let common := oldKeys.filter (fun k => newKeys.contains k)
  let res ← modifiedLoop oldMap newMap common [] ⟨[], [], []⟩
  let modified := res.1
  let fc := res.2
  .ok { added_endpoints := added.map epRefJson
        removed_endpoints := removed.map epRefJson
        modified_endpoints := modified.map epRefJson
        field_changes := fc
        diff_summary := generate_diff_summary added.length removed.length modified.length fc
        total_changes := added.length + removed.length + modified.length }

/-! ### DynamoDBManager (lines 385-505) -/

/-- The snapshot table's item key: the spec's four-part composite key
`(api_name, timestamp, endpoint, method)` (§6). -/
def itemStoreKey (it : Json) : Option Json × Option Json × Option Json × Option Json :=
  (it.lookupKey "api_name", it.lookupKey "timestamp",
   it.lookupKey "endpoint", it.lookupKey "method")

/-- `table.put_item(Item=item)`: idempotent upsert on the item key. -/
def putItem (store : List Json) (item : Json) : List Json :=
  (store.filter (fun it => itemStoreKey it ≠ itemStoreKey item)).concat item

/-- The item stored for one scraped endpoint (lines 416-431); the ISO
`version_ts` rendering of the timestamp is abstracted to its decimal form
(no claim reads it). -/
def DynamoDBManager.endpointItem (api_name source_url : String) (ts : Nat)
    (ep : Json) : Except String Json := do
  let path ← ep.getKey "path"
  let method ← ep.getKey "method"
  let inS ← ep.getKey "input_schema"
  let outS ← ep.getKey "output_schema"
  let auth ← ep.getKey "auth_type"
  .ok (.obj (.cons "api_name" (.str api_name)
    (.cons "endpoint" path
      (.cons "method" method
        (.cons "timestamp" (.str (natToStr ts))
          (.cons "schema" (.obj (.cons "input" inS (.cons "output" outS .nil)))
            (.cons "metadata" (.obj (.cons "auth_type" auth
              (.cons "source_url" (.str source_url)
                (.cons "version_ts" (.str (natToStr ts)) .nil)))) .nil)))))))

/-- Return dict of `DynamoDBManager.store_schema_snapshot` (lines 437-443). -/
structure SnapshotMeta where
  api_name : String
  timestamp : Nat
  endpoints_count : Nat
  stored_count : Nat
  source_url : String
  deriving DecidableEq, Repr

/-- Embedding of `DynamoDBManager.store_schema_snapshot(api_name, endpoints,
source_url)` over a store state; the items written before a raising
endpoint stay written (line 432 happens per endpoint before any raise). -/
def DynamoDBManager.store_schema_snapshot (store : List Json) (api_name : String)
    (endpoints : List Json) (source_url : String) (ts : Nat) :
    List Json × Except String SnapshotMeta :=
  storeGo store endpoints 0
where
  storeGo (st : List Json) : List Json → Nat → List Json × Except String SnapshotMeta
    | [], stored => (st, .ok ⟨api_name, ts, endpoints.length, stored, source_url⟩)
    | ep :: rest, stored =>
        match DynamoDBManager.endpointItem api_name source_url ts ep with
        | .ok item => storeGo (putItem st item) rest (stored + 1)
        | .error e => (st, .error e)

def itemTsStr (it : Json) : String :=
  match it.lookupKey "timestamp" with
  | some (.str s) => s
  | _ => ""

def maxTsStr (items : List Json) : Option String :=
  items.foldl (fun acc it =>
    match acc with
    | none => some (itemTsStr it)
    | some m => if strLtB m (itemTsStr it) then some (itemTsStr it) else some m) none

/-- Embedding of `DynamoDBManager.get_previous_schema(api_name)` (lines
449-489): the items of the *largest* stored timestamp for the API (the
first query is descending on the `timestamp` sort key with `Limit=1`), or
`[]` when the API has no items. -/
def DynamoDBManager.get_previous_schema (store : List Json) (api_name : String) :
    List Json :=
  let mine := store.filter (fun it => it.lookupKey "api_name" == some (.str api_name))
  match maxTsStr mine with
  | none => []
  | some latest => mine.filter (fun it => itemTsStr it = latest)

/-! ### SNSNotifier (lines 507-596) and the per-source loop body of
lambda_handler (lines 650-728) -/

def fieldChangesJson (fc : FieldChanges) : Json :=
  .obj (.cons "added" (.arr (JsonList.ofList (fc.added.map (fun p => .str p.1))))
    (.cons "removed" (.arr (JsonList.ofList (fc.removed.map (fun p => .str p.1))))
      (.cons "changed" (.arr (JsonList.ofList (fc.changed.map (fun p => .str p.1)))) .nil)))

def diffSummaryJson (s : DiffSummary) : Json :=
  .obj (.cons "endpoint_changes"
      (.obj (.cons "added" (.num s.endpoints_added)
        (.cons "removed" (.num s.endpoints_removed)
          (.cons "modified" (.num s.endpoints_modified) .nil))))
    (.cons "field_changes"
      (.obj (.cons "added" (.num s.fields_added)
        (.cons "removed" (.num s.fields_removed)
          (.cons "changed" (.num s.fields_changed) .nil))))
      (.cons "total_changes" (.num s.total_changes) .nil)))

/-- Embedding of `SNSNotifier.format_change_message(api_name, changes,
timestamp)` (lines 567-596); the ISO timestamp rendering is abstracted to
its decimal form. -/
def SNSNotifier.format_change_message (api_name : String) (changes : CompareResult)
    (timestamp : Nat) : Json :=
  .obj (.cons "event" (.str "api.schema.updated")
    (.cons "api" (.str api_name)
      (.cons "timestamp" (.str (natToStr timestamp))
        (.cons "diff_summary" (diffSummaryJson changes.diff_summary)
          (.cons "changes"
            (.obj (.cons "added_endpoints" (.arr (JsonList.ofList changes.added_endpoints))
              (.cons "removed_endpoints" (.arr (JsonList.ofList changes.removed_endpoints))
                (.cons "modified_endpoints" (.arr (JsonList.ofList changes.modified_endpoints))
                  (.cons "field_changes" (fieldChangesJson changes.field_changes) .nil)))))
            (.cons "metadata"
              (.obj (.cons "scan_timestamp" (.num timestamp)
                (.cons "total_changes" (.num changes.total_changes) .nil))) .nil))))))

/-- Observable outcome of processing one configured API inside
`lambda_handler`: the store after the scan, the message published to the
notification sink (if any), and the per-source `ScanResult` fields. -/
structure ScanOutcome where
  store : List Json
  notification : Option Json
  status : String
  error_msg : Option String
  changes_detected : Bool
  endpoints_count : Nat
  deriving DecidableEq, Repr

/-- Embedding of the per-source body of `lambda_handler` (lines 658-728):
scrape, store the snapshot, fetch the "previous" schema, compare, and
publish a notification when the comparison reports changes.  `scrapeResult`
is the outcome of `APIScanner.scrape_openapi` after retries; any exception
in the body is caught at line 723 and recorded as status `error`. -/
def processApi (store : List Json) (api_name source_url : String)
    (scrapeResult : Except String (List Json)) (ts : Nat)
    (snsConfigured : Bool) : ScanOutcome :=
  match scrapeResult with
  | .error e => ⟨store, none, "error", some e, false, 0⟩
  | .ok current_endpoints =>
    if current_endpoints.isEmpty then
      ⟨store, none, "error", some "No endpoints found", false, 0⟩
    else
      match DynamoDBManager.store_schema_snapshot store api_name current_endpoints
          source_url ts with
      | (store1, .error e) => ⟨store1, none, "error", some e, false, 0⟩
      | (store1, .ok snapshot) =>
        let previous_schema := DynamoDBManager.get_previous_schema store1 api_name
        if previous_schema.isEmpty then
          ⟨store1, none, "success", none, false, snapshot.endpoints_count⟩
        else
          match SchemaComparator.compare_schemas previous_schema current_endpoints with
          | .error e => ⟨store1, none, "error", some e, false, 0⟩
          | .ok changes =>
            if changes.total_changes > 0 then
              ⟨store1,
               if snsConfigured then
                 some (SNSNotifier.format_change_message api_name changes snapshot.timestamp)
               else none,
               "success", none, true, snapshot.endpoints_count⟩
            else ⟨store1, none, "success", none, false, snapshot.endpoints_count⟩

/-! ## Auxiliary views used by the theorems -/

/-- The bindings of an object as a list of pairs. -/
def JsonObj.pairs : JsonObj → List (String × Json)
  | .nil => []
  | .cons k v rest => (k, v) :: rest.pairs

/-- All bindings of the first object whose key also occurs in the second
have deeply-equal values there (the shared-key part of dict equality). -/
def JsonObj.sharedEq : JsonObj → JsonObj → Bool
  | .nil, _ => true
  | .cons k v rest, n =>
      (match n.lookup k with
       | some w => Json.deepEq v w
       | none => true) && JsonObj.sharedEq rest n

/-- Decidable side condition for the C6 refinement: every security scheme of
type `http` uses the `bearer` or `basic` scheme (the only `http` cases the
claim describes). -/
def schemesHttpOk (spec : Json) : Bool :=
  match securitySchemesOf spec with
  | .obj o => o.values.all (fun d =>
      match d.getD "type" (.str "unknown") with
      | .str "http" =>
          d.lookupKey "scheme" == some (.str "bearer") ||
          d.lookupKey "scheme" == some (.str "basic")
      | _ => true)
  | _ => true

/-- Stored DynamoDB item used as the C3 failing input: the PetStore snapshot
taken by an earlier scan (timestamp 100). -/
def c3PriorItem : Json :=
  .obj (.cons "api_name" (.str "PetStore")
    (.cons "endpoint" (.str "/pets")
      (.cons "method" (.str "GET")
        (.cons "timestamp" (.str "100")
          (.cons "schema" (.obj (.cons "input" (.obj (.cons "old" (.str "schema") .nil))
            (.cons "output" (.obj .nil) .nil)))
            (.cons "metadata" (.obj .nil) .nil))))))

/-- Freshly scraped PetStore endpoint used as the C3 failing input; its
schema payload differs from the stored one, so the claim requires a change
notification for this scan. -/
def c3ScrapedEndpoint : Json :=
  .obj (.cons "method" (.str "GET")
    (.cons "path" (.str "/pets")
      (.cons "auth_type" (.str "none")
        (.cons "input_schema" (.obj (.cons "type" (.str "none") .nil))
          (.cons "output_schema" (.obj (.cons "type" (.str "json") .nil)) .nil)))))

/-- A fixed schema payload for the C2 endpoint-set scenario. -/
def petsSchemaStub : Json :=
  .obj (.cons "input" (.obj .nil) (.cons "output" (.obj .nil) .nil))

/-- A sample OpenAPI fragment with a bearer scheme, an apiKey scheme and a
non-empty global security list (used by the C6 witness). -/
def sampleAuthSpec : Json :=
  .obj (.cons "security" (.arr (.cons (.obj (.cons "bearerAuth" (.arr .nil) .nil)) .nil))
    (.cons "components" (.obj (.cons "securitySchemes"
      (.obj (.cons "bearerAuth"
          (.obj (.cons "type" (.str "http") (.cons "scheme" (.str "bearer") .nil)))
        (.cons "keyAuth" (.obj (.cons "type" (.str "apiKey") .nil)) .nil))) .nil)) .nil))

/-- Well-formedness of one diff entry: the op is one of the three strings
and `add` / `remove` entries carry `null` on the absent side. -/
def DiffEntryOk (e : DiffEntry) : Prop :=
  (e.op = "add" ∨ e.op = "remove" ∨ e.op = "change") ∧
  (e.op = "add" → e.old = .null) ∧ (e.op = "remove" → e.new = .null)

/-! C1 development -/

theorem diffObjRemoves_eq_nil : ∀ (o n : JsonObj) (p : String),
    diffObjRemoves o n p = [] ↔ o.keys.all n.hasKey = true
  | .nil, n, p => by simp [diffObjRemoves, JsonObj.keys]
  | .cons k v rest, n, p => by
      cases h : n.hasKey k <;>
        simp [diffObjRemoves, JsonObj.keys, h, diffObjRemoves_eq_nil rest n p]

theorem diffObjAdds_eq_nil : ∀ (o n : JsonObj) (p : String),
    diffObjAdds o n p = [] ↔ n.keys.all o.hasKey = true
  | o, .nil, p => by simp [diffObjAdds, JsonObj.keys]
  | o, .cons k v rest, p => by
      cases h : o.hasKey k <;>
        simp [diffObjAdds, JsonObj.keys, h, diffObjAdds_eq_nil o rest p]

theorem subEq_decompose : ∀ (o n : JsonObj),
    JsonObj.subEq o n = true ↔
      (o.keys.all n.hasKey = true ∧ JsonObj.sharedEq o n = true)
  | .nil, n => by simp [JsonObj.subEq, JsonObj.sharedEq, JsonObj.keys]
  | .cons k v rest, n => by
      cases h : n.lookup k with
      | none =>
          simp [JsonObj.subEq, JsonObj.sharedEq, JsonObj.keys, h, JsonObj.hasKey,
            subEq_decompose rest n]
      | some w =>
          simp [JsonObj.subEq, JsonObj.sharedEq, JsonObj.keys, h, JsonObj.hasKey,
            subEq_decompose rest n]
          tauto

mutual

theorem diff_nil_iff : ∀ (A B : Json) (p : String),
    (diff_schemas A B p = [] ↔ A.deepEq B = true)
  | .null, .null, p => by simp [diff_schemas, Json.deepEq]
  | .null, .bool b, p => by simp [diff_schemas, Json.deepEq]
  | .null, .num n, p => by simp [diff_schemas, Json.deepEq]
  | .null, .str s, p => by simp [diff_schemas, Json.deepEq]
  | .null, .arr ys, p => by simp [diff_schemas, Json.deepEq]
  | .null, .obj n, p => by simp [diff_schemas, Json.deepEq]
  | .bool a, .null, p => by simp [diff_schemas, Json.deepEq]
  | .bool a, .bool b, p => by
      by_cases h : a = b <;> simp [diff_schemas, Json.deepEq, h]
  | .bool a, .num n, p => by simp [diff_schemas, Json.deepEq]
  | .bool a, .str s, p => by simp [diff_schemas, Json.deepEq]
  | .bool a, .arr ys, p => by simp [diff_schemas, Json.deepEq]
  | .bool a, .obj n, p => by simp [diff_schemas, Json.deepEq]
  | .num a, .null, p => by simp [diff_schemas, Json.deepEq]
  | .num a, .bool b, p => by simp [diff_schemas, Json.deepEq]
  | .num a, .num b, p => by
      by_cases h : a = b <;> simp [diff_schemas, Json.deepEq, h]
  | .num a, .str s, p => by simp [diff_schemas, Json.deepEq]
  | .num a, .arr ys, p => by simp [diff_schemas, Json.deepEq]
  | .num a, .obj n, p => by simp [diff_schemas, Json.deepEq]
  | .str a, .null, p => by simp [diff_schemas, Json.deepEq]
  | .str a, .bool b, p => by simp [diff_schemas, Json.deepEq]
  | .str a, .num b, p => by simp [diff_schemas, Json.deepEq]
  | .str a, .str b, p => by
      by_cases h : a = b <;> simp [diff_schemas, Json.deepEq, h]
  | .str a, .arr ys, p => by simp [diff_schemas, Json.deepEq]
  | .str a, .obj n, p => by simp [diff_schemas, Json.deepEq]
  | .arr xs, .null, p => by simp [diff_schemas, Json.deepEq]
  | .arr xs, .bool b, p => by simp [diff_schemas, Json.deepEq]
  | .arr xs, .num b, p => by simp [diff_schemas, Json.deepEq]
  | .arr xs, .str s, p => by simp [diff_schemas, Json.deepEq]
  | .arr xs, .arr ys, p => by
      simpa [diff_schemas, Json.deepEq] using diffArrs_nil_iff xs ys p 0
  | .arr xs, .obj n, p => by simp [diff_schemas, Json.deepEq]
  | .obj o, .null, p => by simp [diff_schemas, Json.deepEq]
  | .obj o, .bool b, p => by simp [diff_schemas, Json.deepEq]
  | .obj o, .num b, p => by simp [diff_schemas, Json.deepEq]
  | .obj o, .str s, p => by simp [diff_schemas, Json.deepEq]
  | .obj o, .arr ys, p => by simp [diff_schemas, Json.deepEq]
  | .obj o, .obj n, p => by
      have hs := diffObjShared_nil_iff o n p
      simp [diff_schemas, Json.deepEq, List.append_eq_nil,
        diffObjRemoves_eq_nil, diffObjAdds_eq_nil, subEq_decompose, hs]
      tauto

theorem diffObjShared_nil_iff : ∀ (o n : JsonObj) (p : String),
    (diffObjShared o n p = [] ↔ JsonObj.sharedEq o n = true)
  | .nil, n, p => by simp [diffObjShared, JsonObj.sharedEq]
  | .cons k v rest, n, p => by
      cases h : n.lookup k with
      | none =>
          simp [diffObjShared, JsonObj.sharedEq, h, diffObjShared_nil_iff rest n p]
      | some w =>
          simp [diffObjShared, JsonObj.sharedEq, h, List.append_eq_nil,
            diffObjShared_nil_iff rest n p, diff_nil_iff v w (childPath p k)]

theorem diffArrs_nil_iff : ∀ (xs ys : JsonList) (p : String) (i : Nat),
    (diffArrs xs ys p i = [] ↔ JsonList.deepEq xs ys = true)
  | .nil, .nil, p, i => by simp [diffArrs, diffArrAdds, JsonList.deepEq]
  | .nil, .cons y ys, p, i => by simp [diffArrs, diffArrAdds, JsonList.deepEq]
  | .cons x xs, .nil, p, i => by simp [diffArrs, diffArrRemoves, JsonList.deepEq]
  | .cons x xs, .cons y ys, p, i => by
      simp [diffArrs, JsonList.deepEq, List.append_eq_nil,
        diff_nil_iff x y (idxPath p i), diffArrs_nil_iff xs ys p (i + 1)]

end

/-! C4 development -/

theorem swapEntry_swapEntry (e : DiffEntry) : swapEntry (swapEntry e) = e := by
  obtain ⟨op, p, o, n⟩ := e
  simp only [swapEntry]
  split_ifs with h1 h2 <;> simp_all

theorem swapEntry_eq_iff {e f : DiffEntry} : swapEntry e = f ↔ e = swapEntry f := by
  constructor
  · rintro rfl; rw [swapEntry_swapEntry]
  · rintro rfl; rw [swapEntry_swapEntry]

theorem swap_change (p : String) (a b : Json) :
    swapEntry ⟨"change", p, a, b⟩ = ⟨"change", p, b, a⟩ := by
  simp [swapEntry]

theorem swap_add (p : String) (a b : Json) :
    swapEntry ⟨"add", p, a, b⟩ = ⟨"remove", p, b, a⟩ := by
  simp [swapEntry]

theorem swap_remove (p : String) (a b : Json) :
    swapEntry ⟨"remove", p, a, b⟩ = ⟨"add", p, b, a⟩ := by
  simp [swapEntry]

theorem mem_removes_swap : ∀ (o n : JsonObj) (p : String) (e : DiffEntry),
    e ∈ diffObjRemoves o n p ↔ swapEntry e ∈ diffObjAdds n o p
  | .nil, n, p, e => by simp [diffObjRemoves, diffObjAdds]
  | .cons k v rest, n, p, e => by
      cases h : n.hasKey k <;>
        simp [diffObjRemoves, diffObjAdds, h, mem_removes_swap rest n p e,
          swapEntry_eq_iff, swap_add]

theorem mem_arrRemoves_swap : ∀ (xs : JsonList) (p : String) (i : Nat) (e : DiffEntry),
    e ∈ diffArrRemoves xs p i ↔ swapEntry e ∈ diffArrAdds xs p i
  | .nil, p, i, e => by simp [diffArrRemoves, diffArrAdds]
  | .cons x xs, p, i, e => by
      simp [diffArrRemoves, diffArrAdds, mem_arrRemoves_swap xs p (i + 1) e,
        swapEntry_eq_iff, swap_add]

theorem wf_of_lookup : ∀ (n : JsonObj) (k : String) (w : Json),
    n.wfB = true → n.lookup k = some w → w.wfB = true
  | .nil, k, w => by intro _ hl; simp [JsonObj.lookup] at hl
  | .cons k0 v rest, k, w => by
      intro hwf hl
      simp [JsonObj.wfB] at hwf
      by_cases h : k0 = k
      · simp [JsonObj.lookup, h] at hl; subst hl; exact hwf.1
      · simp [JsonObj.lookup, h] at hl; exact wf_of_lookup rest k w hwf.2 hl

theorem pairs_of_lookup : ∀ (n : JsonObj) (k : String) (w : Json),
    n.lookup k = some w → (k, w) ∈ n.pairs
  | .nil, k, w => by intro hl; simp [JsonObj.lookup] at hl
  | .cons k0 v rest, k, w => by
      intro hl
      by_cases h : k0 = k
      · simp [JsonObj.lookup, h] at hl; subst hl; subst h; simp [JsonObj.pairs]
      · simp [JsonObj.lookup, h] at hl
        simp [JsonObj.pairs]
        exact Or.inr (pairs_of_lookup rest k w hl)

theorem mem_shared_of : ∀ (n o : JsonObj) (p : String) (e : DiffEntry) (k : String)
    (w v : Json), (k, w) ∈ n.pairs → o.lookup k = some v →
    e ∈ diff_schemas w v (childPath p k) → e ∈ diffObjShared n o p
  | .nil, o, p, e, k, w, v => by intro hp; simp [JsonObj.pairs] at hp
  | .cons k0 w0 rest, o, p, e, k, w, v => by
      intro hp hl he
      simp [JsonObj.pairs] at hp
      rcases hp with ⟨hk, hw⟩ | hp
      · subst hk; subst hw
        simp [diffObjShared, hl]
        exact Or.inl he
      · simp [diffObjShared]
        exact Or.inr (mem_shared_of rest o p e k w v hp hl he)

theorem shared_mono : ∀ (n : JsonObj) (k : String) (v : Json) (rest : JsonObj)
    (p : String) (e : DiffEntry), rest.hasKey k = false →
    e ∈ diffObjShared n rest p → e ∈ diffObjShared n (.cons k v rest) p
  | .nil, k, v, rest, p, e => by simp [diffObjShared]
  | .cons k0 w0 tail, k, v, rest, p, e => by
      intro hk he
      simp only [diffObjShared, List.mem_append] at he ⊢
      rcases he with h1 | h2
      · by_cases h : k = k0
        · subst h
          have hnone : rest.lookup k = none := by
            cases hl : rest.lookup k with
            | none => rfl
            | some u => simp [JsonObj.hasKey, hl] at hk
          rw [hnone] at h1
          simp at h1
        · have hlk : JsonObj.lookup (.cons k v rest) k0 = rest.lookup k0 := by
            simp [JsonObj.lookup, h]
          rw [hlk]
          exact Or.inl h1
      · exact Or.inr (shared_mono tail k v rest p e hk h2)

mutual

theorem diff_swap_mem : ∀ (A B : Json) (p : String) (e : DiffEntry),
    A.wfB = true → B.wfB = true →
    e ∈ diff_schemas A B p → swapEntry e ∈ diff_schemas B A p
  | .null, .null, p, e, _, _ => by simp [diff_schemas]
  | .null, .bool b, p, e, _, _ => by
      intro he; simp [diff_schemas] at he ⊢; simp [he, swap_change]
  | .null, .num n, p, e, _, _ => by
      intro he; simp [diff_schemas] at he ⊢; simp [he, swap_change]
  | .null, .str s, p, e, _, _ => by
      intro he; simp [diff_schemas] at he ⊢; simp [he, swap_change]
  | .null, .arr ys, p, e, _, _ => by
      intro he; simp [diff_schemas] at he ⊢; simp [he, swap_change]
  | .null, .obj n, p, e, _, _ => by
      intro he; simp [diff_schemas] at he ⊢; simp [he, swap_change]
  | .bool a, .null, p, e, _, _ => by
      intro he; simp [diff_schemas] at he ⊢; simp [he, swap_change]
  | .bool a, .bool b, p, e, _, _ => by
      by_cases h : a = b <;>
        [simp [diff_schemas, h];
         (intro he; simp [diff_schemas, h, Ne.symm h] at he ⊢; simp [he, swap_change])]
  | .bool a, .num n, p, e, _, _ => by
      intro he; simp [diff_schemas] at he ⊢; simp [he, swap_change]
  | .bool a, .str s, p, e, _, _ => by
      intro he; simp [diff_schemas] at he ⊢; simp [he, swap_change]
  | .bool a, .arr ys, p, e, _, _ => by
      intro he; simp [diff_schemas] at he ⊢; simp [he, swap_change]
  | .bool a, .obj n, p, e, _, _ => by
      intro he; simp [diff_schemas] at he ⊢; simp [he, swap_change]
  | .num a, .null, p, e, _, _ => by
      intro he; simp [diff_schemas] at he ⊢; simp [he, swap_change]
  | .num a, .bool b, p, e, _, _ => by
      intro he; simp [diff_schemas] at he ⊢; simp [he, swap_change]
  | .num a, .num b, p, e, _, _ => by
      by_cases h : a = b <;>
        [simp [diff_schemas, h];
         (intro he; simp [diff_schemas, h, Ne.symm h] at he ⊢; simp [he, swap_change])]
  | .num a, .str s, p, e, _, _ => by
      intro he; simp [diff_schemas] at he ⊢; simp [he, swap_change]
  | .num a, .arr ys, p, e, _, _ => by
      intro he; simp [diff_schemas] at he ⊢; simp [he, swap_change]
  | .num a, .obj n, p, e, _, _ => by
      intro he; simp [diff_schemas] at he ⊢; simp [he, swap_change]
  | .str a, .null, p, e, _, _ => by
      intro he; simp [diff_schemas] at he ⊢; simp [he, swap_change]
  | .str a, .bool b, p, e, _, _ => by
      intro he; simp [diff_schemas] at he ⊢; simp [he, swap_change]
  | .str a, .num b, p, e, _, _ => by
      intro he; simp [diff_schemas] at he ⊢; simp [he, swap_change]
  | .str a, .str b, p, e, _, _ => by
      by_cases h : a = b <;>
        [simp [diff_schemas, h];
         (intro he; simp [diff_schemas, h, Ne.symm h] at he ⊢; simp [he, swap_change])]
  | .str a, .arr ys, p, e, _, _ => by
      intro he; simp [diff_schemas] at he ⊢; simp [he, swap_change]
  | .str a, .obj n, p, e, _, _ => by
      intro he; simp [diff_schemas] at he ⊢; simp [he, swap_change]
  | .arr xs, .null, p, e, _, _ => by
      intro he; simp [diff_schemas] at he ⊢; simp [he, swap_change]
  | .arr xs, .bool b, p, e, _, _ => by
      intro he; simp [diff_schemas] at he ⊢; simp [he, swap_change]
  | .arr xs, .num b, p, e, _, _ => by
      intro he; simp [diff_schemas] at he ⊢; simp [he, swap_change]
  | .arr xs, .str s, p, e, _, _ => by
      intro he; simp [diff_schemas] at he ⊢; simp [he, swap_change]
  | .arr xs, .arr ys, p, e, hA, hB => by
      intro he
      simp [diff_schemas] at he ⊢
      exact arrs_swap_mem xs ys p 0 e (by simpa [Json.wfB] using hA)
        (by simpa [Json.wfB] using hB) he
  | .arr xs, .obj n, p, e, _, _ => by
      intro he; simp [diff_schemas] at he ⊢; simp [he, swap_change]
  | .obj o, .null, p, e, _, _ => by
      intro he; simp [diff_schemas] at he ⊢; simp [he, swap_change]
  | .obj o, .bool b, p, e, _, _ => by
      intro he; simp [diff_schemas] at he ⊢; simp [he, swap_change]
  | .obj o, .num b, p, e, _, _ => by
      intro he; simp [diff_schemas] at he ⊢; simp [he, swap_change]
  | .obj o, .str s, p, e, _, _ => by
      intro he; simp [diff_schemas] at he ⊢; simp [he, swap_change]
  | .obj o, .arr ys, p, e, _, _ => by
      intro he; simp [diff_schemas] at he ⊢; simp [he, swap_change]
  | .obj o, .obj n, p, e, hA, hB => by
      intro he
      simp only [diff_schemas, List.mem_append] at he ⊢
      have hndo : o.keysNodupB = true := by simp [Json.wfB] at hA; exact hA.1
      have hwo : o.wfB = true := by simp [Json.wfB] at hA; exact hA.2
      have hwn : n.wfB = true := by simp [Json.wfB] at hB; exact hB.2
      rcases he with (h1 | h2) | h3
      · exact Or.inl (Or.inr ((mem_removes_swap o n p e).1 h1))
      · refine Or.inl (Or.inl ?_)
        have := (mem_removes_swap n o p (swapEntry e)).2
        rw [swapEntry_swapEntry] at this
        exact this h2
      · exact Or.inr (shared_swap_mem o n p e hndo hwo hwn h3)

theorem shared_swap_mem : ∀ (o n : JsonObj) (p : String) (e : DiffEntry),
    o.keysNodupB = true → o.wfB = true → n.wfB = true →
    e ∈ diffObjShared o n p → swapEntry e ∈ diffObjShared n o p
  | .nil, n, p, e => by simp [diffObjShared]
  | .cons k v rest, n, p, e => by
      intro hnd hwf hn he
      simp [JsonObj.keysNodupB] at hnd
      simp [JsonObj.wfB] at hwf
      simp only [diffObjShared, List.mem_append] at he
      rcases he with h1 | h2
      · cases hl : n.lookup k with
        | none => rw [hl] at h1; simp at h1
        | some w =>
            rw [hl] at h1
            have hsw := diff_swap_mem v w (childPath p k) e hwf.1
              (wf_of_lookup n k w hn hl) h1
            exact mem_shared_of n (.cons k v rest) p (swapEntry e) k w v
              (pairs_of_lookup n k w hl) (by simp [JsonObj.lookup]) hsw
      · have := shared_swap_mem rest n p e hnd.2 hwf.2 hn h2
        exact shared_mono n k v rest p (swapEntry e) (by simpa using hnd.1) this

theorem arrs_swap_mem : ∀ (xs ys : JsonList) (p : String) (i : Nat) (e : DiffEntry),
    xs.wfB = true → ys.wfB = true →
    e ∈ diffArrs xs ys p i → swapEntry e ∈ diffArrs ys xs p i
  | .nil, .nil, p, i, e => by simp [diffArrs, diffArrAdds]
  | .nil, .cons y ys, p, i, e => by
      intro _ _ he
      simp only [diffArrs] at he ⊢
      exact (mem_arrRemoves_swap (.cons y ys) p i (swapEntry e)).2
        (by rwa [swapEntry_swapEntry])
  | .cons x xs, .nil, p, i, e => by
      intro _ _ he
      simp only [diffArrs] at he ⊢
      exact (mem_arrRemoves_swap (.cons x xs) p i e).1 he
  | .cons x xs, .cons y ys, p, i, e => by
      intro hx hy he
      simp [JsonList.wfB] at hx hy
      simp only [diffArrs, List.mem_append] at he ⊢
      rcases he with h1 | h2
      · exact Or.inl (diff_swap_mem x y (idxPath p i) e hx.1 hy.1 h1)
      · exact Or.inr (arrs_swap_mem xs ys p (i + 1) e hx.2 hy.2 h2)

end

/-! C10 development -/

theorem removes_ok : ∀ (o n : JsonObj) (p : String) (e : DiffEntry),
    e ∈ diffObjRemoves o n p → DiffEntryOk e
  | .nil, n, p, e => by simp [diffObjRemoves]
  | .cons k v rest, n, p, e => by
      intro he
      cases h : n.hasKey k <;> simp [diffObjRemoves, h] at he
      · rcases he with h1 | h2
        · subst h1; simp [DiffEntryOk]
        · exact removes_ok rest n p e h2
      · exact removes_ok rest n p e he

theorem adds_ok : ∀ (o n : JsonObj) (p : String) (e : DiffEntry),
    e ∈ diffObjAdds o n p → DiffEntryOk e
  | o, .nil, p, e => by simp [diffObjAdds]
  | o, .cons k v rest, p, e => by
      intro he
      cases h : o.hasKey k <;> simp [diffObjAdds, h] at he
      · rcases he with h1 | h2
        · subst h1; simp [DiffEntryOk]
        · exact adds_ok o rest p e h2
      · exact adds_ok o rest p e he

theorem arrAdds_ok : ∀ (xs : JsonList) (p : String) (i : Nat) (e : DiffEntry),
    e ∈ diffArrAdds xs p i → DiffEntryOk e
  | .nil, p, i, e => by simp [diffArrAdds]
  | .cons x xs, p, i, e => by
      intro he
      simp [diffArrAdds] at he
      rcases he with h1 | h2
      · subst h1; simp [DiffEntryOk]
      · exact arrAdds_ok xs p (i + 1) e h2

theorem arrRemoves_ok : ∀ (xs : JsonList) (p : String) (i : Nat) (e : DiffEntry),
    e ∈ diffArrRemoves xs p i → DiffEntryOk e
  | .nil, p, i, e => by simp [diffArrRemoves]
  | .cons x xs, p, i, e => by
      intro he
      simp [diffArrRemoves] at he
      rcases he with h1 | h2
      · subst h1; simp [DiffEntryOk]
      · exact arrRemoves_ok xs p (i + 1) e h2

mutual

theorem diff_ok : ∀ (A B : Json) (p : String) (e : DiffEntry),
    e ∈ diff_schemas A B p → DiffEntryOk e
  | .null, .null, p, e => by simp [diff_schemas]
  | .null, .bool b, p, e => by
      intro he; simp [diff_schemas] at he; simp [he, DiffEntryOk]
  | .null, .num n, p, e => by
      intro he; simp [diff_schemas] at he; simp [he, DiffEntryOk]
  | .null, .str s, p, e => by
      intro he; simp [diff_schemas] at he; simp [he, DiffEntryOk]
  | .null, .arr ys, p, e => by
      intro he; simp [diff_schemas] at he; simp [he, DiffEntryOk]
  | .null, .obj n, p, e => by
      intro he; simp [diff_schemas] at he; simp [he, DiffEntryOk]
  | .bool a, .null, p, e => by
      intro he; simp [diff_schemas] at he; simp [he, DiffEntryOk]
  | .bool a, .bool b, p, e => by
      by_cases h : a = b <;> intro he <;> simp [diff_schemas, h] at he <;>
        simp [he, DiffEntryOk]
  | .bool a, .num n, p, e => by
      intro he; simp [diff_schemas] at he; simp [he, DiffEntryOk]
  | .bool a, .str s, p, e => by
      intro he; simp [diff_schemas] at he; simp [he, DiffEntryOk]
  | .bool a, .arr ys, p, e => by
      intro he; simp [diff_schemas] at he; simp [he, DiffEntryOk]
  | .bool a, .obj n, p, e => by
      intro he; simp [diff_schemas] at he; simp [he, DiffEntryOk]
  | .num a, .null, p, e => by
      intro he; simp [diff_schemas] at he; simp [he, DiffEntryOk]
  | .num a, .bool b, p, e => by
      intro he; simp [diff_schemas] at he; simp [he, DiffEntryOk]
  | .num a, .num b, p, e => by
      by_cases h : a = b <;> intro he <;> simp [diff_schemas, h] at he <;>
        simp [he, DiffEntryOk]
  | .num a, .str s, p, e => by
      intro he; simp [diff_schemas] at he; simp [he, DiffEntryOk]
  | .num a, .arr ys, p, e => by
      intro he; simp [diff_schemas] at he; simp [he, DiffEntryOk]
  | .num a, .obj n, p, e => by
      intro he; simp [diff_schemas] at he; simp [he, DiffEntryOk]
  | .str a, .null, p, e => by
      intro he; simp [diff_schemas] at he; simp [he, DiffEntryOk]
  | .str a, .bool b, p, e => by
      intro he; simp [diff_schemas] at he; simp [he, DiffEntryOk]
  | .str a, .num b, p, e => by
      intro he; simp [diff_schemas] at he; simp [he, DiffEntryOk]
  | .str a, .str b, p, e => by
      by_cases h : a = b <;> intro he <;> simp [diff_schemas, h] at he <;>
        simp [he, DiffEntryOk]
  | .str a, .arr ys, p, e => by
      intro he; simp [diff_schemas] at he; simp [he, DiffEntryOk]
  | .str a, .obj n, p, e => by
      intro he; simp [diff_schemas] at he; simp [he, DiffEntryOk]
  | .arr xs, .null, p, e => by
      intro he; simp [diff_schemas] at he; simp [he, DiffEntryOk]
  | .arr xs, .bool b, p, e => by
      intro he; simp [diff_schemas] at he; simp [he, DiffEntryOk]
  | .arr xs, .num b, p, e => by
      intro he; simp [diff_schemas] at he; simp [he, DiffEntryOk]
  | .arr xs, .str s, p, e => by
      intro he; simp [diff_schemas] at he; simp [he, DiffEntryOk]
  | .arr xs, .arr ys, p, e => by
      intro he
      simp only [diff_schemas] at he
      exact arrs_ok xs ys p 0 e he
  | .arr xs, .obj n, p, e => by
      intro he; simp [diff_schemas] at he; simp [he, DiffEntryOk]
  | .obj o, .null, p, e => by
      intro he; simp [diff_schemas] at he; simp [he, DiffEntryOk]
  | .obj o, .bool b, p, e => by
      intro he; simp [diff_schemas] at he; simp [he, DiffEntryOk]
  | .obj o, .num b, p, e => by
      intro he; simp [diff_schemas] at he; simp [he, DiffEntryOk]
  | .obj o, .str s, p, e => by
      intro he; simp [diff_schemas] at he; simp [he, DiffEntryOk]
  | .obj o, .arr ys, p, e => by
      intro he; simp [diff_schemas] at he; simp [he, DiffEntryOk]
  | .obj o, .obj n, p, e => by
      intro he
      simp only [diff_schemas, List.mem_append] at he
      rcases he with (h1 | h2) | h3
      · exact removes_ok o n p e h1
      · exact adds_ok o n p e h2
      · exact shared_ok o n p e h3

theorem shared_ok : ∀ (o n : JsonObj) (p : String) (e : DiffEntry),
    e ∈ diffObjShared o n p → DiffEntryOk e
  | .nil, n, p, e => by simp [diffObjShared]
  | .cons k v rest, n, p, e => by
      intro he
      simp only [diffObjShared, List.mem_append] at he
      rcases he with h1 | h2
      · cases hl : n.lookup k with
        | none => rw [hl] at h1; simp at h1
        | some w => rw [hl] at h1; exact diff_ok v w (childPath p k) e h1
      · exact shared_ok rest n p e h2

theorem arrs_ok : ∀ (xs ys : JsonList) (p : String) (i : Nat) (e : DiffEntry),
    e ∈ diffArrs xs ys p i → DiffEntryOk e
  | .nil, ys, p, i, e => by
      intro he; simp only [diffArrs] at he; exact arrAdds_ok ys p i e he
  | .cons x xs, .nil, p, i, e => by
      intro he; simp only [diffArrs] at he; exact arrRemoves_ok (.cons x xs) p i e he
  | .cons x xs, .cons y ys, p, i, e => by
      intro he
      simp only [diffArrs, List.mem_append] at he
      rcases he with h1 | h2
      · exact diff_ok x y (idxPath p i) e h1
      · exact arrs_ok xs ys p (i + 1) e h2

end

/-! C2 development -/

theorem mem_dedupKeysAux : ∀ (l seen : List (String × String)) (k : String × String),
    k ∈ dedupKeysAux l seen ↔ (k ∈ l ∧ k ∉ seen)
  | [], seen, k => by simp [dedupKeysAux]
  | k0 :: rest, seen, k => by
      by_cases h : k0 ∈ seen
      · rw [dedupKeysAux, if_pos (by simpa using h)]
        rw [mem_dedupKeysAux rest seen k]
        simp only [List.mem_cons]
        constructor
        · rintro ⟨h1, h2⟩; exact ⟨Or.inr h1, h2⟩
        · rintro ⟨h1 | h1, h2⟩
          · subst h1; exact absurd h h2
          · exact ⟨h1, h2⟩
      · rw [dedupKeysAux, if_neg (by simpa using h)]
        simp only [List.mem_cons]
        rw [mem_dedupKeysAux rest (k0 :: seen) k]
        simp only [List.mem_cons]
        by_cases hk : k = k0
        · subst hk; simp [h]
        · simp [hk]

theorem mem_itemKeySet (l : List ScanItem) (k : String × String) :
    k ∈ itemKeySet l ↔ k ∈ l.map ScanItem.key := by
  simp [itemKeySet, mem_dedupKeysAux]

theorem mem_map_epref (l : List (String × String)) (p m : String) :
    (⟨p, m⟩ : EndpointRef) ∈ l.map (fun k => (⟨k.1, k.2⟩ : EndpointRef)) ↔ (p, m) ∈ l := by
  constructor
  · intro h
    rcases List.mem_map.1 h with ⟨a, ha, heq⟩
    have h1 : a.1 = p := congrArg EndpointRef.path heq
    have h2 : a.2 = m := congrArg EndpointRef.method heq
    have : a = (p, m) := Prod.ext h1 h2
    rwa [this] at ha
  · intro h
    exact List.mem_map.2 ⟨(p, m), h, rfl⟩

theorem itemKeySet_contains (l : List ScanItem) (k : String × String) :
    (itemKeySet l).contains k = true ↔ k ∈ l.map ScanItem.key := by
  rw [List.elem_iff, mem_itemKeySet]

theorem findItem_isSome (l : List ScanItem) (pm : String × String) :
    (findItem l pm).isSome ↔ pm ∈ l.map ScanItem.key := by
  rw [findItem, List.find?_isSome]
  constructor
  · rintro ⟨it, hit, hp⟩
    simp at hp
    exact List.mem_map.2 ⟨it, hit, by simp [ScanItem.key, hp.1, hp.2]⟩
  · intro h
    rcases List.mem_map.1 h with ⟨it, hit, hk⟩
    refine ⟨it, hit, ?_⟩
    simp [ScanItem.key, Prod.ext_iff] at hk
    simp [hk.1, hk.2]

/-- General classification behaviour of compare_schemas. -/
theorem compare_general (old_schema new_schema : List ScanItem) :
    (∀ pm : String × String,
      (⟨pm.1, pm.2⟩ : EndpointRef) ∈ (compare_schemas old_schema new_schema).added_endpoints ↔
        (pm ∈ new_schema.map ScanItem.key ∧ pm ∉ old_schema.map ScanItem.key)) ∧
    (∀ pm : String × String,
      (⟨pm.1, pm.2⟩ : EndpointRef) ∈ (compare_schemas old_schema new_schema).removed_endpoints ↔
        (pm ∈ old_schema.map ScanItem.key ∧ pm ∉ new_schema.map ScanItem.key)) ∧
    (∀ (pm : String × String) (so sn : Json),
      (⟨pm.1, pm.2, so, sn⟩ : ModifiedEndpoint) ∈
          (compare_schemas old_schema new_schema).modified_endpoints ↔
        (pm ∈ old_schema.map ScanItem.key ∧ pm ∈ new_schema.map ScanItem.key ∧
         itemSchema old_schema pm = some so ∧ itemSchema new_schema pm = some sn ∧
         so.deepEq sn = false)) := by
  refine ⟨?_, ?_, ?_⟩
  · intro pm
    show (⟨pm.1, pm.2⟩ : EndpointRef) ∈ List.map _ (List.filter _ (itemKeySet new_schema)) ↔ _
    rw [mem_map_epref]
    rw [List.mem_filter]
    simp [mem_itemKeySet]
  · intro pm
    show (⟨pm.1, pm.2⟩ : EndpointRef) ∈ List.map _ (List.filter _ (itemKeySet old_schema)) ↔ _
    rw [mem_map_epref]
    rw [List.mem_filter]
    simp [mem_itemKeySet]
  · intro pm so sn
    show (⟨pm.1, pm.2, so, sn⟩ : ModifiedEndpoint) ∈ List.filterMap _ (List.filter _ (itemKeySet old_schema)) ↔ _
    rw [List.mem_filterMap]
    constructor
    · rintro ⟨a, ha, hf⟩
      rw [List.mem_filter, mem_itemKeySet] at ha
      obtain ⟨ha1, ha2⟩ := ha
      have ha2m : a ∈ new_schema.map ScanItem.key := (itemKeySet_contains new_schema a).1 ha2
      cases ho : findItem old_schema a with
      | none =>
          exfalso
          have := (findItem_isSome old_schema a).2 ha1
          rw [ho] at this; simp at this
      | some oi =>
        cases hn : findItem new_schema a with
        | none =>
            exfalso
            have := (findItem_isSome new_schema a).2 ha2m
            rw [hn] at this; simp at this
        | some ni =>
          simp only [ho, hn] at hf
          cases hde : oi.schema.deepEq ni.schema
          case true => rw [hde] at hf; simp at hf
          case false =>
            rw [hde] at hf
            simp only [Bool.false_eq_true, if_false] at hf
            have hf' := Option.some.inj hf
            have he : a.1 = pm.1 := congrArg ModifiedEndpoint.path hf'
            have hm : a.2 = pm.2 := congrArg ModifiedEndpoint.method hf'
            have hso : oi.schema = so := congrArg ModifiedEndpoint.old_schema hf'
            have hsn : ni.schema = sn := congrArg ModifiedEndpoint.new_schema hf'
            have hapm : a = pm := Prod.ext he hm
            subst hapm
            refine ⟨ha1, ha2m, ?_, ?_, ?_⟩
            · simp [itemSchema, ho, hso]
            · simp [itemSchema, hn, hsn]
            · rw [← hso, ← hsn]; exact hde
    · rintro ⟨h1, h2, h3, h4, h5⟩
      refine ⟨pm, ?_, ?_⟩
      · rw [List.mem_filter, mem_itemKeySet]
        exact ⟨h1, (itemKeySet_contains new_schema pm).2 h2⟩
      · cases ho : findItem old_schema pm with
        | none => simp [itemSchema, ho] at h3
        | some oi =>
          cases hn : findItem new_schema pm with
          | none => simp [itemSchema, hn] at h4
          | some ni =>
            simp [itemSchema, ho] at h3
            simp [itemSchema, hn] at h4
            have hde : oi.schema.deepEq ni.schema = false := by rw [h3, h4]; exact h5
            simp only [ho, hn, hde, Bool.false_eq_true, if_false]
            rw [h3, h4]

theorem refWalk_empty : ∀ (parts : List String),
    refWalk (.obj .nil) parts = .ok (.obj .nil)
  | [] => rfl
  | part :: rest => by
      simp [refWalk, refStep, JsonObj.getD, JsonObj.lookup]
      exact refWalk_empty rest

theorem refWalk_missing (o : JsonObj) (k : String) (parts : List String)
    (h : o.lookup k = none) : refWalk (.obj o) (k :: parts) = .ok (.obj .nil) := by
  simp [refWalk, refStep, JsonObj.getD, h]
  exact refWalk_empty parts

/-! C6 development -/

theorem schemeAuth_eq (d : Json)
    (h : d.getD "type" (.str "unknown") = .str "http" →
      d.lookupKey "scheme" = some (.str "bearer") ∨
      d.lookupKey "scheme" = some (.str "basic")) :
    schemeAuthString d = claimSchemeAuthString d := by
  cases ht : d.getD "type" (.str "unknown") with
  | str t =>
      by_cases hhttp : t = "http"
      · subst hhttp
        rcases h ht with hb | hb <;>
          simp [schemeAuthString, claimSchemeAuthString, ht, hb]
      · simp [schemeAuthString, claimSchemeAuthString, ht, hhttp]
  | null => simp [schemeAuthString, claimSchemeAuthString, ht]
  | bool b => simp [schemeAuthString, claimSchemeAuthString, ht]
  | num n => simp [schemeAuthString, claimSchemeAuthString, ht]
  | arr xs => simp [schemeAuthString, claimSchemeAuthString, ht]
  | obj o => simp [schemeAuthString, claimSchemeAuthString, ht]

theorem extract_auth_refines (spec : Json)
    (h : ∀ o : JsonObj, securitySchemesOf spec = .obj o →
      ∀ d ∈ o.values, d.getD "type" (.str "unknown") = .str "http" →
        d.lookupKey "scheme" = some (.str "bearer") ∨
        d.lookupKey "scheme" = some (.str "basic")) :
    extract_openapi_auth spec = claimAuthType spec := by
  rw [extract_openapi_auth, claimAuthType]
  cases htr : (securitySchemesOf spec).truthy
  · simp
  · simp only [htr, Bool.not_true, Bool.false_eq_true, if_false]
    cases hS : securitySchemesOf spec with
    | obj o =>
        have heq : o.values.map schemeAuthString = o.values.map claimSchemeAuthString :=
          List.map_congr_left (fun d hd => schemeAuth_eq d (h o hS d hd))
        simp [heq]
    | null => rfl
    | bool b => rfl
    | num n => rfl
    | str s => rfl
    | arr xs => rfl

/-! C9 development -/

theorem charListLt_asymm : ∀ (a b : List Char),
    charListLt a b = true → charListLt b a = false
  | [], [] => by simp [charListLt]
  | [], _ :: _ => by simp [charListLt]
  | _ :: _, [] => by simp [charListLt]
  | c :: cs, d :: ds => by
      intro h
      simp only [charListLt] at h ⊢
      rcases lt_trichotomy c d with hcd | hcd | hcd
      · simp [hcd, not_lt_of_gt hcd]
      · subst hcd
        simp only [lt_irrefl, if_false] at h ⊢
        exact charListLt_asymm cs ds h
      · simp [hcd, not_lt_of_gt hcd] at h

theorem charListLt_cotrans : ∀ (a b c : List Char), charListLt a c = true →
    charListLt a b = true ∨ charListLt b c = true
  | [], [], c => fun h => Or.inr h
  | [], _ :: _, _ => fun _ => Or.inl (by simp [charListLt])
  | _ :: _, [], c => fun h => by
      cases c with
      | nil => simp [charListLt] at h
      | cons c cs => exact Or.inr (by simp [charListLt])
  | _ :: _, _ :: _, [] => fun h => by simp [charListLt] at h
  | a :: as, b :: bs, c :: cs => fun h => by
      simp only [charListLt] at h ⊢
      rcases lt_trichotomy a b with hab | hab | hab
      · left; simp [hab]
      · subst hab
        rcases lt_trichotomy a c with hac | hac | hac
        · right; simp [hac]
        · subst hac
          simp only [lt_irrefl, if_false] at h ⊢
          exact charListLt_cotrans as bs cs h
        · simp [not_lt_of_gt hac, hac] at h
      · right
        rcases lt_trichotomy b c with hbc | hbc | hbc
        · simp [hbc]
        · subst hbc
          rcases lt_trichotomy a b with h2 | h2 | h2
          · exact absurd hab (not_lt_of_gt h2)
          · subst h2; exact absurd hab (lt_irrefl a)
          · simp [not_lt_of_gt h2, h2] at h
        · rcases lt_trichotomy a c with h2 | h2 | h2
          · exact absurd h2 (not_lt_of_gt (lt_trans hbc hab))
          · rw [h2] at hab; exact absurd (lt_trans hbc hab) (lt_irrefl c)
          · simp [not_lt_of_gt h2, h2] at h

theorem charListLt_conn : ∀ (a b : List Char), a ≠ b →
    charListLt a b = true ∨ charListLt b a = true
  | [], [] => fun h => absurd rfl h
  | [], _ :: _ => fun _ => Or.inl (by simp [charListLt])
  | _ :: _, [] => fun _ => Or.inr (by simp [charListLt])
  | a :: as, b :: bs => fun h => by
      rcases lt_trichotomy a b with hab | hab | hab
      · exact Or.inl (by simp [charListLt, hab])
      · subst hab
        have hne : as ≠ bs := fun he => h (by rw [he])
        rcases charListLt_conn as bs hne with h1 | h1
        · exact Or.inl (by simp [charListLt, h1])
        · exact Or.inr (by simp [charListLt, h1])
      · exact Or.inr (by simp [charListLt, hab])

theorem strLtB_asymm (a b : String) (h : strLtB a b = true) : strLtB b a = false :=
  charListLt_asymm a.data b.data h

theorem strLtB_cotrans (a b c : String) (h : strLtB a c = true) :
    strLtB a b = true ∨ strLtB b c = true :=
  charListLt_cotrans a.data b.data c.data h

theorem strLtB_conn (a b : String) (h : a ≠ b) :
    strLtB a b = true ∨ strLtB b a = true := by
  refine charListLt_conn a.data b.data (fun he => h ?_)
  cases a; cases b; exact congrArg String.mk he

theorem mem_pyInsert (precede : α → α → Bool) (x : α) :
    ∀ (l : List α) (z : α), z ∈ pyInsert precede x l ↔ z = x ∨ z ∈ l
  | [], z => by simp [pyInsert]
  | y :: ys, z => by
      by_cases h : precede y x = true
      · rw [pyInsert, if_pos h]
        simp only [List.mem_cons, mem_pyInsert precede x ys z]
        tauto
      · rw [pyInsert, if_neg h]
        simp only [List.mem_cons]

theorem perm_pyInsert (precede : α → α → Bool) (x : α) :
    ∀ (l : List α), List.Perm (pyInsert precede x l) (x :: l)
  | [] => by simp [pyInsert]
  | y :: ys => by
      by_cases h : precede y x = true
      · rw [pyInsert, if_pos h]
        exact ((perm_pyInsert precede x ys).cons y).trans (List.Perm.swap x y ys)
      · rw [pyInsert, if_neg h]

theorem perm_pySorted (precede : α → α → Bool) :
    ∀ (l : List α), List.Perm (pySorted precede l) l
  | [] => by simp [pySorted]
  | x :: xs => by
      rw [pySorted]
      exact (perm_pyInsert precede x (pySorted precede xs)).trans
        ((perm_pySorted precede xs).cons x)

theorem pairwise_pyInsert (R : α → α → Prop) (precede : α → α → Bool)
    (h1 : ∀ a b, precede b a = false → R a b)
    (h2 : ∀ a b, precede a b = true → R a b)
    (htrans : ∀ a b c, R a b → R b c → R a c) (x : α) :
    ∀ (l : List α), l.Pairwise R → (pyInsert precede x l).Pairwise R
  | [], _ => by simp [pyInsert]
  | y :: ys, hp => by
      rcases List.pairwise_cons.1 hp with ⟨hy, hys⟩
      by_cases h : precede y x
      · simp only [pyInsert, h, if_true]
        refine List.pairwise_cons.2 ⟨?_, pairwise_pyInsert R precede h1 h2 htrans x ys hys⟩
        intro z hz
        rcases (mem_pyInsert precede x ys z).1 hz with rfl | hz'
        · exact h2 y z h
        · exact hy z hz'
      · simp only [pyInsert, h, if_false]
        refine List.pairwise_cons.2 ⟨?_, hp⟩
        intro z hz
        rcases List.mem_cons.1 hz with rfl | hz'
        · exact h1 x z (by simpa using h)
        · exact htrans x y z (h1 x y (by simpa using h)) (hy z hz')

theorem pairwise_pySorted (R : α → α → Prop) (precede : α → α → Bool)
    (h1 : ∀ a b, precede b a = false → R a b)
    (h2 : ∀ a b, precede a b = true → R a b)
    (htrans : ∀ a b c, R a b → R b c → R a c) :
    ∀ (l : List α), (pySorted precede l).Pairwise R
  | [] => by simp [pySorted]
  | x :: xs => by
      simp only [pySorted]
      exact pairwise_pyInsert R precede h1 h2 htrans x (pySorted precede xs)
        (pairwise_pySorted R precede h1 h2 htrans xs)

theorem bumpGroup_ts_map (m : String) :
    ∀ (acc : List VersionSummary) (ts : String),
      (bumpGroup m acc ts).map VersionSummary.timestamp =
        acc.map VersionSummary.timestamp
  | [], ts => rfl
  | v :: vs, ts => by
      by_cases h : v.timestamp = ts
      · simp [bumpGroup, h]
      · simp [bumpGroup, h, bumpGroup_ts_map m vs ts]

theorem group_ts_nodup :
    ∀ (items : List SnapshotItem) (acc : List VersionSummary),
      (acc.map VersionSummary.timestamp).Nodup →
      ((groupVersions items acc).map VersionSummary.timestamp).Nodup
  | [], acc => fun h => h
  | it :: rest, acc => by
      intro h
      by_cases hc : (acc.map VersionSummary.timestamp).contains it.timestamp
      · rw [groupVersions, if_pos hc]
        exact group_ts_nodup rest (bumpGroup it.method acc it.timestamp)
          (by rwa [bumpGroup_ts_map])
      · rw [groupVersions, if_neg hc]
        refine group_ts_nodup rest _ ?_
        have hnm : it.timestamp ∉ acc.map VersionSummary.timestamp := by
          intro hmem
          exact hc (by simpa [List.elem_iff] using hmem)
        simp only [List.concat_eq_append, List.map_append, List.map_cons, List.map_nil]
        rw [List.nodup_append]
        refine ⟨h, List.nodup_singleton _, ?_⟩
        intro a ha hb
        simp only [List.mem_singleton] at hb
        subst hb
        exact hnm ha

theorem chain_of_pairwise :
    ∀ (l : List VersionSummary),
      l.Pairwise (fun a b => strLtB b.timestamp a.timestamp = true) →
      chainDescLex (l.map VersionSummary.timestamp) = true
  | [] => fun _ => rfl
  | [v] => fun _ => rfl
  | a :: b :: rest => by
      intro h
      rcases List.pairwise_cons.1 h with ⟨ha, h2⟩
      have hrec := chain_of_pairwise (b :: rest) h2
      simp only [List.map_cons] at hrec ⊢
      rw [chainDescLex, ha b (by simp), hrec]
      rfl

/-- The amended C9 statement. -/
theorem list_api_versions_desc (items : List SnapshotItem) :
    chainDescLex ((list_api_versions items).map VersionSummary.timestamp) = true := by
  have hnodup : ((groupVersions items []).map VersionSummary.timestamp).Nodup :=
    group_ts_nodup items [] (by simp)
  have hperm : List.Perm (list_api_versions items) (groupVersions items []) := by
    rw [list_api_versions]
    exact perm_pySorted _ _
  have hnodup2 : ((list_api_versions items).map VersionSummary.timestamp).Nodup :=
    (hperm.map VersionSummary.timestamp).nodup_iff.2 hnodup
  have hpw1 : (list_api_versions items).Pairwise
      (fun a b => strLtB a.timestamp b.timestamp = false) := by
    rw [list_api_versions]
    apply pairwise_pySorted
    · intro a b hab
      exact hab
    · intro a b hab
      exact strLtB_asymm _ _ hab
    · intro a b c hab hbc
      cases hac : strLtB a.timestamp c.timestamp
      · rfl
      · rcases strLtB_cotrans a.timestamp b.timestamp c.timestamp hac with h | h
        · rw [h] at hab; exact hab
        · rw [h] at hbc; exact hbc
  have hpw2 : (list_api_versions items).Pairwise
      (fun a b => a.timestamp ≠ b.timestamp) := by
    rw [← List.pairwise_map]
    exact hnodup2
  have hpw : (list_api_versions items).Pairwise
      (fun a b => strLtB b.timestamp a.timestamp = true) := by
    refine (hpw1.and hpw2).imp ?_
    rintro a b ⟨h1, h2⟩
    rcases strLtB_conn a.timestamp b.timestamp h2 with h | h
    · rw [h] at h1; cases h1
    · exact h
  exact chain_of_pairwise _ hpw

/-! Reflexivity of deep equality on well-formed values (needed for the
diff-idempotence half of C1). -/

theorem hasKey_of_mem_keys : ∀ (o : JsonObj) (k : String),
    k ∈ o.keys → o.hasKey k = true
  | .nil, k => by simp [JsonObj.keys]
  | .cons k0 v rest, k => by
      intro h
      rcases List.mem_cons.1 (by simpa [JsonObj.keys] using h) with h1 | h1
      · subst h1; simp [JsonObj.hasKey, JsonObj.lookup]
      · by_cases hk : k0 = k
        · simp [JsonObj.hasKey, JsonObj.lookup, hk]
        · simpa [JsonObj.hasKey, JsonObj.lookup, hk] using
            hasKey_of_mem_keys rest k h1

theorem keys_all_hasKey_self (o : JsonObj) : o.keys.all o.hasKey = true :=
  List.all_eq_true.2 (fun k hk => hasKey_of_mem_keys o k hk)

theorem hasKey_of_pairs_mem : ∀ (o : JsonObj) (k : String) (v : Json),
    (k, v) ∈ o.pairs → o.hasKey k = true
  | .nil, k, v => by simp [JsonObj.pairs]
  | .cons k0 v0 rest, k, v => by
      intro h
      rcases (by simpa [JsonObj.pairs] using h :
          (k = k0 ∧ v = v0) ∨ (k, v) ∈ rest.pairs) with ⟨hk, hv⟩ | h1
      · simp [JsonObj.hasKey, JsonObj.lookup, hk]
      · by_cases hk : k0 = k
        · simp [JsonObj.hasKey, JsonObj.lookup, hk]
        · simpa [JsonObj.hasKey, JsonObj.lookup, hk] using
            hasKey_of_pairs_mem rest k v h1

theorem lookup_of_pairs_nodup : ∀ (o : JsonObj) (k : String) (v : Json),
    o.keysNodupB = true → (k, v) ∈ o.pairs → o.lookup k = some v
  | .nil, k, v => by simp [JsonObj.pairs]
  | .cons k0 v0 rest, k, v => by
      intro hnd h
      simp [JsonObj.keysNodupB] at hnd
      rcases (by simpa [JsonObj.pairs] using h :
          (k = k0 ∧ v = v0) ∨ (k, v) ∈ rest.pairs) with ⟨hk, hv⟩ | h1
      · simp [JsonObj.lookup, hk, hv]
      · by_cases hk : k0 = k
        · subst hk
          exact absurd (hasKey_of_pairs_mem rest k0 v h1) (by simpa using hnd.1)
        · simpa [JsonObj.lookup, hk] using
            lookup_of_pairs_nodup rest k v hnd.2 h1

mutual

theorem deepEq_refl : ∀ (S : Json), S.wfB = true → S.deepEq S = true
  | .null => fun _ => rfl
  | .bool b => fun _ => by simp [Json.deepEq]
  | .num n => fun _ => by simp [Json.deepEq]
  | .str s => fun _ => by simp [Json.deepEq]
  | .arr xs => fun h => by
      simp only [Json.deepEq]
      exact deepEq_refl_list xs (by simpa [Json.wfB] using h)
  | .obj o => fun h => by
      simp only [Json.wfB, Bool.and_eq_true] at h
      simp only [Json.deepEq, Bool.and_eq_true]
      exact ⟨subEq_pairs o o (by simpa using h.2)
          (fun k v hp => lookup_of_pairs_nodup o k v (by simpa using h.1) hp),
        keys_all_hasKey_self o⟩

theorem deepEq_refl_list : ∀ (xs : JsonList), xs.wfB = true →
    JsonList.deepEq xs xs = true
  | .nil => fun _ => rfl
  | .cons x xs => fun h => by
      simp only [JsonList.wfB, Bool.and_eq_true] at h
      simp only [JsonList.deepEq, Bool.and_eq_true]
      exact ⟨deepEq_refl x h.1, deepEq_refl_list xs h.2⟩

theorem subEq_pairs : ∀ (o n : JsonObj), o.wfB = true →
    (∀ k v, (k, v) ∈ o.pairs → n.lookup k = some v) → JsonObj.subEq o n = true
  | .nil, n => fun _ _ => rfl
  | .cons k v rest, n => fun h hl => by
      simp only [JsonObj.wfB, Bool.and_eq_true] at h
      have hk : n.lookup k = some v := hl k v (by simp [JsonObj.pairs])
      simp only [JsonObj.subEq, hk, Bool.and_eq_true]
      exact ⟨deepEq_refl v h.1,
        subEq_pairs rest n h.2 (fun k' v' hp => hl k' v' (by simp [JsonObj.pairs, hp]))⟩

end

/-! ## Claim theorems -/

/-- C1: for every pair of JSON-like trees A and B, diff_schemas returns the
empty list iff A and B are deeply equal; in particular the diff of any
well-formed tree with itself (at any path) is empty, so no entry is ever
emitted for an unchanged subtree. -/
theorem c1_diff_empty_iff_deep_equal :
    ∀ (A B S : Json) (p q : String),
      (diff_schemas A B p = [] ↔ Json.deepEq A B = true) ∧
      (S.wfB = true → diff_schemas S S q = []) :=
  fun A B S p q =>
    ⟨diff_nil_iff A B p, fun h => (diff_nil_iff S S q).2 (deepEq_refl S h)⟩

theorem c1_witness :
    diff_schemas (.obj (.cons "a" (.num 1) .nil)) (.obj (.cons "a" (.num 1) .nil))
      "" = [] :=
  (c1_diff_empty_iff_deep_equal (.obj .nil) (.obj .nil)
    (.obj (.cons "a" (.num 1) .nil)) "" "").2 (by decide)

/-- C4: diff antisymmetry — an add entry at path P in diff_schemas A B
corresponds exactly to a remove entry at path P in diff_schemas B A with the
old and new values swapped, and vice versa (A and B well-formed JSON
trees). -/
theorem c4_diff_antisymmetry :
    ∀ (A B : Json) (p P : String) (o n : Json),
      A.wfB = true → B.wfB = true →
      ((⟨"add", P, o, n⟩ : DiffEntry) ∈ diff_schemas A B p ↔
        (⟨"remove", P, n, o⟩ : DiffEntry) ∈ diff_schemas B A p) := by
  intro A B p P o n hA hB
  constructor
  · intro h
    have hs := diff_swap_mem A B p ⟨"add", P, o, n⟩ hA hB h
    rwa [swap_add] at hs
  · intro h
    have hs := diff_swap_mem B A p ⟨"remove", P, n, o⟩ hB hA h
    rwa [swap_remove] at hs

theorem c4_witness :
    (⟨"add", "a", .null, .num 1⟩ : DiffEntry) ∈
        diff_schemas (.obj .nil) (.obj (.cons "a" (.num 1) .nil)) "" ↔
      (⟨"remove", "a", .num 1, .null⟩ : DiffEntry) ∈
        diff_schemas (.obj (.cons "a" (.num 1) .nil)) (.obj .nil) "" :=
  c4_diff_antisymmetry (.obj .nil) (.obj (.cons "a" (.num 1) .nil)) "" "a"
    .null (.num 1) (by decide) (by decide)

/-- C5: null is present-with-value-null, distinct from absent — removing a
null-valued key yields exactly one remove entry with old = null and
new = null, and symmetrically adding one yields exactly one add entry. -/
theorem c5_null_vs_missing :
    diff_schemas (.obj (.cons "a" .null .nil)) (.obj .nil) "" =
      [⟨"remove", "a", .null, .null⟩] ∧
    diff_schemas (.obj .nil) (.obj (.cons "a" .null .nil)) "" =
      [⟨"add", "a", .null, .null⟩] := by decide

/-- C10: every entry produced by diff_schemas has op add, remove or change;
add entries have old = null and remove entries have new = null. -/
theorem c10_diff_entry_wellformed (A B : Json) (p : String) (e : DiffEntry)
    (he : e ∈ diff_schemas A B p) :
    (e.op = "add" ∨ e.op = "remove" ∨ e.op = "change") ∧
    (e.op = "add" → e.old = .null) ∧ (e.op = "remove" → e.new = .null) :=
  diff_ok A B p e he

theorem c10_witness :
    ((⟨"add", "b", .null, .num 2⟩ : DiffEntry).op = "add" ∨
      (⟨"add", "b", .null, .num 2⟩ : DiffEntry).op = "remove" ∨
      (⟨"add", "b", .null, .num 2⟩ : DiffEntry).op = "change") ∧
    ((⟨"add", "b", .null, .num 2⟩ : DiffEntry).op = "add" →
      (⟨"add", "b", .null, .num 2⟩ : DiffEntry).old = .null) ∧
    ((⟨"add", "b", .null, .num 2⟩ : DiffEntry).op = "remove" →
      (⟨"add", "b", .null, .num 2⟩ : DiffEntry).new = .null) :=
  c10_diff_entry_wellformed (.obj .nil) (.obj (.cons "b" (.num 2) .nil)) ""
    ⟨"add", "b", .null, .num 2⟩ (by decide)

/-- C2: the endpoint-set comparison buckets items by their
(endpoint, method) key and classifies keys only in the new snapshot as
added, keys only in the old snapshot as removed, and shared keys whose
schema payloads differ as modified; on the old snapshot
[(GET,/pets),(POST,/pets)] and new snapshot
[(GET,/pets),(POST,/pets),(GET,/pets/id-pattern)] it returns exactly one
added endpoint and no removed or modified ones. -/
theorem c2_endpoint_set_comparison :
    (∀ (old_schema new_schema : List ScanItem),
      (∀ pm : String × String,
        (⟨pm.1, pm.2⟩ : EndpointRef) ∈
            (compare_schemas old_schema new_schema).added_endpoints ↔
          (pm ∈ new_schema.map ScanItem.key ∧ pm ∉ old_schema.map ScanItem.key)) ∧
      (∀ pm : String × String,
        (⟨pm.1, pm.2⟩ : EndpointRef) ∈
            (compare_schemas old_schema new_schema).removed_endpoints ↔
          (pm ∈ old_schema.map ScanItem.key ∧ pm ∉ new_schema.map ScanItem.key)) ∧
      (∀ (pm : String × String) (so sn : Json),
        (⟨pm.1, pm.2, so, sn⟩ : ModifiedEndpoint) ∈
            (compare_schemas old_schema new_schema).modified_endpoints ↔
          (pm ∈ old_schema.map ScanItem.key ∧ pm ∈ new_schema.map ScanItem.key ∧
           itemSchema old_schema pm = some so ∧ itemSchema new_schema pm = some sn ∧
           so.deepEq sn = false))) ∧
    compare_schemas
        [⟨"/pets", "GET", petsSchemaStub⟩, ⟨"/pets", "POST", petsSchemaStub⟩]
        [⟨"/pets", "GET", petsSchemaStub⟩, ⟨"/pets", "POST", petsSchemaStub⟩,
         ⟨"/pets/{id}", "GET", petsSchemaStub⟩] =
      { added_endpoints := [⟨"/pets/{id}", "GET"⟩]
        removed_endpoints := []
        modified_endpoints := [] } :=
  ⟨compare_general, by decide⟩

/-- C3 evaluation: with a prior PetStore snapshot in the store and a freshly
scraped endpoint whose schema payload differs, the scan cycle publishes no
notification and records status error — the comparison step raises KeyError
because scraped items carry their path under the key path while the
comparator reads the key endpoint (and the "previous" version fetched after
storing is the snapshot just written). -/
theorem c3_scan_cycle_no_notification :
    (processApi [c3PriorItem] "PetStore" "https://petstore.swagger.io/v2/swagger.json"
        (.ok [c3ScrapedEndpoint]) 200 true).notification = none ∧
    (processApi [c3PriorItem] "PetStore" "https://petstore.swagger.io/v2/swagger.json"
        (.ok [c3ScrapedEndpoint]) 200 true).status = "error" ∧
    (processApi [c3PriorItem] "PetStore" "https://petstore.swagger.io/v2/swagger.json"
        (.ok [c3ScrapedEndpoint]) 200 true).error_msg = some "KeyError: endpoint" ∧
    Json.deepEq
      (.obj (.cons "input" (.obj (.cons "old" (.str "schema") .nil))
        (.cons "output" (.obj .nil) .nil)))
      (.obj (.cons "input" (.obj (.cons "type" (.str "none") .nil))
        (.cons "output" (.obj (.cons "type" (.str "json") .nil)) .nil))) = false := by
  decide

/-- C6: on every spec whose http security schemes are bearer or basic (the
cases the claim enumerates), the extracted auth string equals the string
described by the claim — none when securitySchemes is absent or empty,
otherwise the per-scheme strings (bearer_token, basic_auth, api_key,
oauth2, or the raw type string) joined with a comma and suffixed with
required or optional according to the global security list. -/
theorem c6_auth_extraction (spec : Json) (h : schemesHttpOk spec = true) :
    extract_openapi_auth spec = claimAuthType spec := by
  apply extract_auth_refines
  intro o hS d hd ht
  simp only [schemesHttpOk, hS] at h
  have hall := List.all_eq_true.1 h d hd
  simp only [ht] at hall
  rcases Bool.or_eq_true_iff.1 hall with h1 | h1
  · exact Or.inl (by simpa using h1)
  · exact Or.inr (by simpa using h1)

theorem c6_witness :
    extract_openapi_auth sampleAuthSpec = claimAuthType sampleAuthSpec ∧
    extract_openapi_auth sampleAuthSpec = "bearer_token, api_key (required)" :=
  ⟨c6_auth_extraction sampleAuthSpec (by decide), by decide⟩

/-- C7 counterexample: resolution can raise — a document in which the
pointer steps into a non-dict value makes the walk call .get on a non-dict,
an AttributeError, refuting "resolution never raises an error". -/
theorem c7_counterexample :
    resolve_schema_ref (.cons "$ref" (.str "#/a/b") .nil)
        (.cons "a" (.num 5) .nil) =
      .error "AttributeError: value has no attribute get" := by decide

/-- C7 (amended): a key missing from an object-valued node yields the empty
object and the rest of the pointer then resolves to the empty object
without error; in particular a ref whose pointer fails at an object key
resolves to the empty object. (Resolution can still raise when the pointer
steps into a non-object value, per the counterexample.) -/
theorem c7_resolution_degrades :
    (∀ (o : JsonObj) (k : String) (parts : List String), o.lookup k = none →
      refWalk (.obj o) (k :: parts) = .ok (.obj .nil)) ∧
    resolve_schema_ref (.cons "$ref" (.str "#/components/schemas/Missing") .nil)
        (.cons "components"
          (.obj (.cons "schemas" (.obj (.cons "Pet" (.obj .nil) .nil)) .nil)) .nil) =
      .ok (.obj .nil) :=
  ⟨fun o k parts h => refWalk_missing o k parts h, by decide⟩

theorem c7_witness :
    refWalk (.obj (.cons "x" (.num 1) .nil)) ["y", "z"] = .ok (.obj .nil) :=
  c7_resolution_degrades.1 (.cons "x" (.num 1) .nil) "y" ["z"] (by decide)

/-- C8: when the backend call fails with an unavailability error (missing
credentials, unreachable endpoint or missing table), store_schema_snapshot
returns the same echoed item a successful put would return instead of
raising, and list_api_names returns the empty list instead of raising. -/
theorem c8_store_degradation (api_name endpoint method : String) (schema : Json)
    (metadata : JsonObj) (timestamp : Nat) (e : String)
    (h : isAwsUnavailable e = true) :
    store_schema_snapshot api_name endpoint method schema metadata timestamp
        (.error e) =
      store_schema_snapshot api_name endpoint method schema metadata timestamp
        (.ok ()) ∧
    list_api_names (.error e) = .ok [] := by
  simp [store_schema_snapshot, list_api_names, h]

theorem c8_witness :
    store_schema_snapshot "PetStore" "/pets" "get" (.num 1) .nil 100
        (.error "botocore.exceptions.NoCredentialsError: Unable to locate credentials") =
      store_schema_snapshot "PetStore" "/pets" "get" (.num 1) .nil 100 (.ok ()) ∧
    list_api_names
        (.error "botocore.exceptions.NoCredentialsError: Unable to locate credentials") =
      .ok [] :=
  c8_store_degradation "PetStore" "/pets" "get" (.num 1) .nil 100
    "botocore.exceptions.NoCredentialsError: Unable to locate credentials" (by decide)

/-- C9 counterexample: for stored timestamps 9 and 100, the returned order
is the string-descending one, 9 before 100, which is numerically
increasing — refuting "strictly decreasing order of unix-seconds
timestamps" for every set of stored items. -/
theorem c9_counterexample :
    (list_api_versions [⟨"9", "GET", .nil⟩, ⟨"100", "GET", .nil⟩]).map
        VersionSummary.timestamp = ["9", "100"] ∧
    chainDescNat ((list_api_versions [⟨"9", "GET", .nil⟩, ⟨"100", "GET", .nil⟩]).map
        (fun v => strToNatD v.timestamp)) = false := by decide

/-- C9 (amended): list_api_versions returns the version summaries ordered
by their string-encoded timestamp in strictly decreasing lexicographic
order (which coincides with numerically newest-first exactly when the
stored timestamp strings have equal digit length, e.g. all standard
10-digit unix-seconds values). -/
theorem c9_versions_lex_descending (items : List SnapshotItem) :
    chainDescLex ((list_api_versions items).map VersionSummary.timestamp) = true :=
  list_api_versions_desc items
